import Mathlib

/-! vcodecsv: build selection, flaw filtering and CSV projection.

A shallow embedding of `main.go`.  The program walks the account's application
list, picks for each application the newest build whose detailed report can be
fetched (probing at most four builds), filters the flaws of that report by the
command-line flags and writes one CSV record per surviving flaw, preceded by a
single header record.

The package-level variables of the program and the locals of `main` that carry
over from one loop iteration to the next are threaded explicitly as a `State`.
The three remote operations of the `vcodeapi` library and the operating system
(file creation, success of the individual `writer.Write` calls) are parameters.  The
remote operations are functions of their argument: the remote data do not change during
a run.  Console output (progress lines, run time) and the choice of the output file name
are not modelled.
-/

namespace Vcodecsv

/-! ## Data model (the fields of the `vcodeapi` types that `main.go` reads) -/

/-- An entry of the application list (`vcodeapi.App`). -/
structure App where
  AppID : String
  AppName : String
deriving DecidableEq, Repr

/-- An entry of a build list (`vcodeapi.Build`); the list is ordered oldest first. -/
structure Build where
  BuildID : String
deriving DecidableEq, Repr

/-- A finding of a detailed report (`vcodeapi.Flaw`). -/
structure Flaw where
  Issueid : String
  CategoryName : String
  CweName : String
  Cweid : String
  RemediationStatus : String
  MitigationStatus : String
  PolicyName : String
  AffectsPolicyCompliance : String
  DateFirstOccurrence : String
  Severity : String
  ExploitLevel : String
  Module : String
  Sourcefile : String
  Line : String
  FlawURL : String
  Description : String
deriving DecidableEq, Repr

/-- An application-level custom field (`vcodeapi.CustomField`). -/
structure CustomField where
  Name : String
  Value : String
deriving DecidableEq, Repr

/-- One module element of the dynamic-analysis block. -/
structure AnalysisModule where
  TargetURL : String
deriving DecidableEq, Repr

/-- The `Modules` element of the dynamic-analysis block: a slice of modules. -/
structure ModuleList where
  Module : List AnalysisModule
deriving DecidableEq, Repr

/-- The static-analysis block of a detailed report. -/
structure StaticBlock where
  SubmittedDate : String
deriving DecidableEq, Repr

/-- The dynamic-analysis block of a detailed report. -/
structure DynamicBlock where
  SubmittedDate : String
  Modules : ModuleList
deriving DecidableEq, Repr

/-- The manual-analysis block of a detailed report. -/
structure ManualBlock where
  SubmittedDate : String
deriving DecidableEq, Repr

/-- The detailed report of a build (`vcodeapi.DetReport`). -/
structure DetReport where
  StaticAnalysis : StaticBlock
  DynamicAnalysis : DynamicBlock
  ManualAnalysis : ManualBlock
deriving DecidableEq, Repr

/-- The zero value of `vcodeapi.DetReport`. -/
def DetReport.zero : DetReport :=
  { StaticAnalysis := { SubmittedDate := "" }
    DynamicAnalysis := { SubmittedDate := "", Modules := { Module := [] } }
    ManualAnalysis := { SubmittedDate := "" } }

/-- The four results of one call of `vcodeapi.ParseDetailedReport`; `err` is the Go
`error` value, `none` standing for `nil`. -/
structure Fetched where
  report : DetReport
  flaws : List Flaw
  customFields : List CustomField
  err : Option String
deriving DecidableEq, Repr

/-- The remote client, for the fixed credentials file of the run. -/
structure Remote where
  ParseAppList : Except String (List App)
  ParseBuildList : String → Except String (List Build)
  ParseDetailedReport : String → Fetched

/-- The operating system as the program sees it: whether `os.Create` succeeds and
whether the call number `n` (counted from 0) of `writer.Write` succeeds. -/
structure Sys where
  createOk : Bool
  writeOk : Nat → Bool

/-- The command-line flags read by the loop (`-nonpv`, `-mitigated`, `-static`,
`-dynamic`, `-desc`). -/
structure Flags where
  inclNonPV : Bool
  inclMitigated : Bool
  staticOnly : Bool
  dynamicOnly : Bool
  inclDesc : Bool
deriving DecidableEq, Repr

/-- Which of the two `writer.Write` call sites produced a record. -/
inductive RowKind where
  | header
  | data
deriving DecidableEq, Repr

/-- A record accepted by the CSV encoder, tagged with the call site that wrote it. -/
structure OutRow where
  kind : RowKind
  cells : List String
deriving DecidableEq, Repr

/-- The package-level variables, the counter `appWithFlawsCounter` of `main`, the
encoder (the records written so far and the number of `Write` calls made), and the log
of the build ids passed to `ParseDetailedReport`, in call order. -/
structure State where
  recentBuild : String
  scanType : String
  appSkip : Bool
  detailedReport : DetReport
  flaws : List Flaw
  appCustomFields : List CustomField
  errorCheck : Option String
  scanTargetURL : String
  scanSubmittedDate : String
  appWithFlawsCounter : Nat
  out : List OutRow
  nwrites : Nat
  fetchLog : List String

/-- The state at the start of `main`: every variable holds its zero value. -/
def State.init : State :=
  { recentBuild := "", scanType := "", appSkip := false, detailedReport := DetReport.zero,
    flaws := [], appCustomFields := [], errorCheck := none, scanTargetURL := "",
    scanSubmittedDate := "", appWithFlawsCounter := 0, out := [], nwrites := 0,
    fetchLog := [] }

/-- How a run can end early: `log.Fatal` (exit without running deferred calls) or a
run-time panic (index out of range). -/
inductive Halt where
  | fatal
  | panic
deriving DecidableEq, Repr

/-- An early end of the run together with the state reached. -/
structure Stop where
  kind : Halt
  st : State

/-- A computation step: the next state, or an early end. -/
abbrev Exec := Except Stop State

/-- The state a computation ends in, whether it completed or stopped early. -/
def final : Exec → State
  | .ok s => s
  | .error e => e.st

/-- Go slice indexing `xs[i]` with a signed index: `none` is the out-of-range panic. -/
def index {α : Type} (xs : List α) (i : Int) : Option α :=
  if 0 ≤ i ∧ i < (xs.length : Int) then xs[i.toNat]? else none

/-! ## Build selection (lines 90-114) -/

/-- The assignment of lines 98-99 and 104-105: the detailed report of build `id` is
fetched (the call is logged), its four results replace the current ones and
`recentBuild` becomes `id`. -/
def assignReport (R : Remote) (id : String) (s : State) : State :=
  let r := R.ParseDetailedReport id
  { s with detailedReport := r.report, flaws := r.flaws, appCustomFields := r.customFields,
           errorCheck := r.err, recentBuild := id, fetchLog := s.fetchLog ++ [id] }

/-- The body of the loop `for i := 1; i < 4; i++` (lines 103-106). -/
def fallbackStep (R : Remote) (buildList : List Build) (i : Int) (s : State) : Exec :=
  if (buildList.length : Int) > i ∧ s.errorCheck ≠ none then
    match index buildList ((buildList.length : Int) - (i + 1)) with
    | none => .error { kind := .panic, st := s }
    | some b => .ok (assignReport R b.BuildID s)
  else .ok s

/-- The loop of lines 102-107, over the values taken by `i`. -/
def fallbackLoop (R : Remote) (buildList : List Build) : List Int → State → Exec
  | [], s => .ok s
  | i :: rest, s =>
    match fallbackStep R buildList i s with
    | .error e => .error e
    | .ok s1 => fallbackLoop R buildList rest s1

/-- Lines 90-114: the build selector. -/
def selectBuild (R : Remote) (buildList : List Build) (s : State) : Exec :=
  if buildList.length = 0 then
    .ok { s with appSkip := true, flaws := [], recentBuild := "" }
  else
    match index buildList ((buildList.length : Int) - 1) with
    | none => .error { kind := .panic, st := s }
    | some b =>
      match fallbackLoop R buildList [1, 2, 3] (assignReport R b.BuildID s) with
      | .error e => .error e
      | .ok s2 => if s2.errorCheck ≠ none then .ok { s2 with appSkip := true } else .ok s2

/-! ## Flaw filter and row projection (lines 133-174) -/

/-- The condition of the `continue` of lines 140-146. -/
def skipFlaw (fl : Flags) (f : Flaw) : Bool :=
  f.RemediationStatus == "Fixed" || f.RemediationStatus == "Cannot Reproduce" ||
  (fl.inclNonPV == false && f.AffectsPolicyCompliance == "false") ||
  (fl.inclMitigated == false && f.MitigationStatus == "accepted") ||
  (fl.staticOnly == true && f.Module == "dynamic_analysis") ||
  (fl.dynamicOnly == true && f.Module != "dynamic_analysis")

/-- Lines 136-138: the three per-flaw variables are reset. -/
def resetScan (s : State) : State :=
  { s with scanType := "", scanTargetURL := "", scanSubmittedDate := "" }

/-- Lines 149-159: the scan type and its two companions; the dynamic branch indexes
the first module of the report. -/
def determineScanType (f : Flaw) (s : State) : Exec :=
  if f.Module = "dynamic_analysis" then
    match index s.detailedReport.DynamicAnalysis.Modules.Module 0 with
    | none => .error { kind := .panic, st := { s with scanType := "dynamic" } }
    | some m =>
      .ok { s with scanType := "dynamic", scanTargetURL := m.TargetURL,
                   scanSubmittedDate := s.detailedReport.DynamicAnalysis.SubmittedDate }
  else if f.Module = "manual_analysis" then
    .ok { s with scanType := "manual",
                 scanSubmittedDate := s.detailedReport.ManualAnalysis.SubmittedDate }
  else
    .ok { s with scanType := "static",
                 scanSubmittedDate := s.detailedReport.StaticAnalysis.SubmittedDate }

/-- Lines 162-169: the record of a flaw, given the first custom field. -/
def entry (fl : Flags) (app : App) (c : CustomField) (f : Flaw) (s : State) : List String :=
  let uniqueFlawID := app.AppID ++ "-" ++ f.Issueid
  let e := [app.AppName, app.AppID, c.Value, s.recentBuild, uniqueFlawID, f.Issueid,
    s.scanType, f.CategoryName, f.CweName, f.Cweid, f.RemediationStatus, f.MitigationStatus,
    f.PolicyName, f.AffectsPolicyCompliance, f.DateFirstOccurrence, s.scanSubmittedDate,
    f.Severity, f.ExploitLevel, f.Module, f.Sourcefile, f.Line, s.scanTargetURL, f.FlawURL]
  if fl.inclDesc = true then e ++ [f.Description] else e

/-- One call of `writer.Write`: the record joins the output when the call succeeds;
the call is counted either way.  The result tells whether it succeeded. -/
def write (W : Sys) (r : OutRow) (s : State) : Bool × State :=
  if W.writeOk s.nwrites = true then
    (true, { s with out := s.out ++ [r], nwrites := s.nwrites + 1 })
  else (false, { s with nwrites := s.nwrites + 1 })

/-- The body of the loop over the flaws (lines 134-173).  A failed write of a data
record is printed and the loop goes on. -/
def flawBody (fl : Flags) (W : Sys) (app : App) (f : Flaw) (s : State) : Exec :=
  let s0 := resetScan s
  if skipFlaw fl f = true then .ok s0
  else
    match determineScanType f s0 with
    | .error e => .error e
    | .ok s1 =>
      match index s1.appCustomFields 0 with
      | none => .error { kind := .panic, st := s1 }
      | some c => .ok (write W { kind := .data, cells := entry fl app c f s1 } s1).2

/-- The loop `for _, f := range flaws` (lines 133-174). -/
def flawLoop (fl : Flags) (W : Sys) (app : App) : List Flaw → State → Exec
  | [], s => .ok s
  | f :: rest, s =>
    match flawBody fl W app f s with
    | .error e => .error e
    | .ok s1 => flawLoop fl W app rest s1

/-! ## Header and driver (lines 76-176) -/

/-- Lines 122-126: the header record, given the first custom field. -/
def headers (fl : Flags) (c : CustomField) : List String :=
  let h := ["app_name", "app_id", c.Name, "build_id", "unique_id", "issueid",
    "analysis_type", "category", "cwe_name", "cwe_id", "remediation_status",
    "mitigation_status", "policy_name", "affects_policy_compliance",
    "date_first_occurrence", "recent_scan_date", "severity", "exploit_level", "module",
    "source_file", "line", "scan_target_url", "flaw_url"]
  if fl.inclDesc = true then h ++ ["description"] else h

/-- Lines 121-131: on the first application that is not skipped the header is built
and written; a failed write is fatal. -/
def writeHeader (fl : Flags) (W : Sys) (s : State) : Exec :=
  if s.appWithFlawsCounter = 1 then
    match index s.appCustomFields 0 with
    | none => .error { kind := .panic, st := s }
    | some c =>
      let w := write W { kind := .header, cells := headers fl c } s
      if w.1 = true then .ok w.2 else .error { kind := .fatal, st := w.2 }
  else .ok s

/-- Lines 116-175: the output of an application once its build is selected. -/
def printApp (fl : Flags) (W : Sys) (app : App) (s : State) : Exec :=
  if s.appSkip = false then
    let s1 := { s with appWithFlawsCounter := s.appWithFlawsCounter + 1 }
    match writeHeader fl W s1 with
    | .error e => .error e
    | .ok s2 => flawLoop fl W app s2.flaws s2
  else .ok s

/-- The body of the loop over the applications (lines 80-175).  The progress line is
not modelled. -/
def processApp (fl : Flags) (R : Remote) (W : Sys) (app : App) (s : State) : Exec :=
  let s0 := { s with appSkip := false }
  match R.ParseBuildList app.AppID with
  | .error _ => .error { kind := .fatal, st := s0 }
  | .ok buildList =>
    match selectBuild R buildList s0 with
    | .error e => .error e
    | .ok s1 => printApp fl W app s1

/-- The loop `for _, app := range appList` (lines 79-176). -/
def appLoop (fl : Flags) (R : Remote) (W : Sys) : List App → State → Exec
  | [], s => .ok s
  | app :: rest, s =>
    match processApp fl R W app s with
    | .error e => .error e
    | .ok s1 => appLoop fl R W rest s1

/-- The function `main`: a failure of the application list or of the file creation is
fatal before any record is written. -/
def main (fl : Flags) (R : Remote) (W : Sys) : Exec :=
  match R.ParseAppList with
  | .error _ => .error { kind := .fatal, st := State.init }
  | .ok appList =>
    if W.createOk = true then appLoop fl R W appList State.init
    else .error { kind := .fatal, st := State.init }

/-- The records handed to the encoder by a run, in order. -/
def output (fl : Flags) (R : Remote) (W : Sys) : List OutRow :=
  (final (main fl R W)).out

/-- The data records among a list of records. -/
def dataRows (rows : List OutRow) : List (List String) :=
  (rows.filter (fun r => r.kind = RowKind.data)).map (fun r => r.cells)

/-- The header records among a list of records. -/
def headerRows (rows : List OutRow) : List (List String) :=
  (rows.filter (fun r => r.kind = RowKind.header)).map (fun r => r.cells)

/-! ## Specification-level descriptions used in the statements -/

/-- The builds the selector may probe: the newest four at most, newest first. -/
def probes (buildList : List Build) : List Build :=
  buildList.reverse.take 4

/-- Whether the detailed report of a build can be fetched. -/
def usable (R : Remote) (b : Build) : Bool :=
  (R.ParseDetailedReport b.BuildID).err == none

/-- The newest build among the probed ones whose report can be fetched. -/
def firstUsable (R : Remote) (buildList : List Build) : Option Build :=
  (probes buildList).find? (usable R)

/-- The scan type, scan target URL and scan date of a flaw as the specification
gives them (section 4.3); `none` when the dynamic block has no module to take the URL
from. -/
def specScan (r : DetReport) (f : Flaw) : Option (String × String × String) :=
  if f.Module = "dynamic_analysis" then
    r.DynamicAnalysis.Modules.Module.head?.map
      (fun m => ("dynamic", m.TargetURL, r.DynamicAnalysis.SubmittedDate))
  else if f.Module = "manual_analysis" then
    some ("manual", "", r.ManualAnalysis.SubmittedDate)
  else
    some ("static", "", r.StaticAnalysis.SubmittedDate)

/-- The cells of a data record as the specification lists them, for application `a`,
first custom field `c`, selected build id `b`, flaw `f` and the scan triple. -/
def specCells (fl : Flags) (a : App) (c : CustomField) (b : String) (f : Flaw)
    (scanType scanURL scanDate : String) : List String :=
  [a.AppName, a.AppID, c.Value, b, a.AppID ++ "-" ++ f.Issueid, f.Issueid, scanType,
    f.CategoryName, f.CweName, f.Cweid, f.RemediationStatus, f.MitigationStatus,
    f.PolicyName, f.AffectsPolicyCompliance, f.DateFirstOccurrence, scanDate, f.Severity,
    f.ExploitLevel, f.Module, f.Sourcefile, f.Line, scanURL, f.FlawURL]
    ++ (if fl.inclDesc = true then [f.Description] else [])

/-- The record of a flaw as the specification gives it, for application `a`, selected
build id `b`, report `r` and custom fields `cs`; `none` when there is no first custom
field or no scan triple. -/
def specRow (fl : Flags) (a : App) (b : String) (r : DetReport) (cs : List CustomField)
    (f : Flaw) : Option (List String) :=
  match specScan r f, cs.head? with
  | some (scanType, scanURL, scanDate), some c =>
    some (specCells fl a c b f scanType scanURL scanDate)
  | _, _ => none

/-- The five drop rules of the specification (section 4.2). -/
def specDrop (fl : Flags) (f : Flaw) : Prop :=
  (f.RemediationStatus = "Fixed" ∨ f.RemediationStatus = "Cannot Reproduce") ∨
  (fl.inclNonPV = false ∧ f.AffectsPolicyCompliance = "false") ∨
  (fl.inclMitigated = false ∧ f.MitigationStatus = "accepted") ∨
  (fl.staticOnly = true ∧ f.Module = "dynamic_analysis") ∨
  (fl.dynamicOnly = true ∧ f.Module ≠ "dynamic_analysis")

instance (fl : Flags) (f : Flaw) : Decidable (specDrop fl f) := by
  unfold specDrop
  infer_instance

/-- The build ids fetched when the probes `ps` are tried in order: each probe up to and
including the first usable one. -/
def fetchedUpTo (R : Remote) : List Build → List String
  | [] => []
  | b :: rest => b.BuildID :: (if usable R b = true then [] else fetchedUpTo R rest)

/-- The fallback over the probes that follow the newest build, newest first: a probe
is fetched only while the current error indication is set. -/
def walk (R : Remote) : List Build → State → State
  | [], s => s
  | b :: rest, s => walk R rest (if s.errorCheck ≠ none then assignReport R b.BuildID s else s)

/-- The state the selector ends in, described over the list of probes. -/
def selectResult (R : Remote) (buildList : List Build) (s : State) : State :=
  match probes buildList with
  | [] => { s with appSkip := true, flaws := [], recentBuild := "" }
  | a :: rest =>
    let s2 := walk R rest (assignReport R a.BuildID s)
    if s2.errorCheck ≠ none then { s2 with appSkip := true } else s2

/-- The variables the flaw loop only reads. -/
def Kept (s t : State) : Prop :=
  t.recentBuild = s.recentBuild ∧ t.detailedReport = s.detailedReport ∧
  t.appCustomFields = s.appCustomFields ∧ t.flaws = s.flaws ∧
  t.appWithFlawsCounter = s.appWithFlawsCounter ∧ t.appSkip = s.appSkip

/-- The state after the scan type of a flaw is determined. -/
def scanned (s : State) (x : String × String × String) : State :=
  { s with scanType := x.1, scanTargetURL := x.2.1, scanSubmittedDate := x.2.2 }

/-- The records the flaw loop adds to the output when it starts at write count `n`,
for build id `b`, report `r` and custom fields `cs`: it stops at the first surviving
flaw that has no record. -/
def emitted (fl : Flags) (W : Sys) (app : App) (b : String) (r : DetReport)
    (cs : List CustomField) : List Flaw → Nat → List OutRow
  | [], _ => []
  | f :: rest, n =>
    if skipFlaw fl f = true then emitted fl W app b r cs rest n
    else
      match specRow fl app b r cs f with
      | none => []
      | some row =>
        (if W.writeOk n = true then [{ kind := .data, cells := row }] else [])
          ++ emitted fl W app b r cs rest (n + 1)

/-! ## Pure descriptions of what the loops write -/

/-- The build selected for an application: the first usable probe of its build list. -/
def selected (R : Remote) (a : App) : Option Build :=
  match R.ParseBuildList a.AppID with
  | .ok bl => firstUsable R bl
  | .error _ => none

/-- The records one application adds to the output, when `cnt` applications were
already printed and `n` writes were already made. -/
def appOut (fl : Flags) (R : Remote) (W : Sys) (a : App) (cnt n : Nat) : List OutRow :=
  match selected R a with
  | none => []
  | some b =>
    let r := R.ParseDetailedReport b.BuildID
    if cnt = 0 then
      match r.customFields.head? with
      | none => []
      | some c =>
        if W.writeOk n = true then
          { kind := .header, cells := headers fl c }
            :: emitted fl W a b.BuildID r.report r.customFields r.flaws (n + 1)
        else []
    else emitted fl W a b.BuildID r.report r.customFields r.flaws n

/-- Every record of the list was written by the flaw loop. -/
def allData (rows : List OutRow) : Prop :=
  ∀ x ∈ rows, x.kind = RowKind.data

/-- The flaws of the selected build of an application that pass the filter. -/
def survivors (fl : Flags) (R : Remote) (a : App) : List Flaw :=
  match selected R a with
  | none => []
  | some b => (R.ParseDetailedReport b.BuildID).flaws.filter (fun f => !skipFlaw fl f)

/-- The data records of an application: one per surviving flaw of its selected build,
in flaw-list order. -/
def appRows (fl : Flags) (R : Remote) (a : App) : List (List String) :=
  match selected R a with
  | none => []
  | some b =>
    (survivors fl R a).filterMap
      (specRow fl a b.BuildID (R.ParseDetailedReport b.BuildID).report
        (R.ParseDetailedReport b.BuildID).customFields)

/-! ## Sample data for the concrete instances -/

/-- An open, policy-violating, unmitigated static flaw. -/
def flawOpen : Flaw :=
  { Issueid := "1", CategoryName := "SQL Injection", CweName := "SQLi", Cweid := "89",
    RemediationStatus := "Open", MitigationStatus := "none", PolicyName := "Policy",
    AffectsPolicyCompliance := "true", DateFirstOccurrence := "2018-01-01", Severity := "4",
    ExploitLevel := "1", Module := "static_commands", Sourcefile := "a.c", Line := "7",
    FlawURL := "u/1", Description := "desc" }

/-- A report with all three analysis blocks and one dynamic module. -/
def reportFull : DetReport :=
  { StaticAnalysis := { SubmittedDate := "2018-02-01" }
    DynamicAnalysis := { SubmittedDate := "2018-02-02",
                         Modules := { Module := [{ TargetURL := "https://x/y" }] } }
    ManualAnalysis := { SubmittedDate := "2018-02-03" } }

/-- A usable fetch result with the given flaws and one custom field. -/
def fetchedOk (name value : String) (fs : List Flaw) : Fetched :=
  { report := reportFull, flaws := fs,
    customFields := [{ Name := name, Value := value }], err := none }

/-- A fetch result with an error indication. -/
def fetchedErr : Fetched :=
  { report := DetReport.zero, flaws := [], customFields := [], err := some "no results" }

/-- All flags at their default `false`. -/
def flagsDefault : Flags :=
  { inclNonPV := false, inclMitigated := false, staticOnly := false, dynamicOnly := false,
    inclDesc := false }

/-- A system on which the file is created and every write succeeds. -/
def sysOk : Sys :=
  { createOk := true, writeOk := fun _ => true }

/-- Four builds, oldest first. -/
def buildsFour : List Build :=
  [{ BuildID := "b0" }, { BuildID := "b1" }, { BuildID := "b2" }, { BuildID := "b3" }]

/-- Scenario S3: one application with four builds of which only the oldest has a
report, with one open flaw. -/
def remoteS3 : Remote :=
  { ParseAppList := .ok [{ AppID := "10", AppName := "shop" }]
    ParseBuildList := fun _ => .ok buildsFour
    ParseDetailedReport := fun id =>
      if id = "b0" then fetchedOk "Business Unit" "Finance" [flawOpen] else fetchedErr }

/-- A fixed flaw: rule 1 drops it. -/
def flawFixed : Flaw :=
  { flawOpen with Issueid := "2", RemediationStatus := "Fixed" }

/-- An open dynamic flaw. -/
def flawDynamic : Flaw :=
  { flawOpen with Issueid := "3", Module := "dynamic_analysis" }

/-- Two applications in the manner of scenario S5: the first has no build, the second
one build with an open static flaw, a fixed flaw and an open dynamic flaw. -/
def remoteS5 : Remote :=
  { ParseAppList := .ok [{ AppID := "10", AppName := "shop" }, { AppID := "20", AppName := "bank" }]
    ParseBuildList := fun id => if id = "10" then .ok [] else .ok [{ BuildID := "b7" }]
    ParseDetailedReport := fun _ =>
      fetchedOk "Business Unit" "Finance" [flawOpen, flawFixed, flawDynamic] }

/-- One application with one usable build whose report lists no flaw. -/
def remoteNoFlaws : Remote :=
  { ParseAppList := .ok [{ AppID := "10", AppName := "shop" }]
    ParseBuildList := fun _ => .ok [{ BuildID := "b1" }]
    ParseDetailedReport := fun _ => fetchedOk "Business Unit" "Finance" [] }

/-- Two applications with one usable build each: the first has the custom field `Region`
and no flaw, the second the custom field `Business Unit` and one open flaw. -/
def remoteTwoLabels : Remote :=
  { ParseAppList := .ok [{ AppID := "10", AppName := "shop" }, { AppID := "20", AppName := "bank" }]
    ParseBuildList := fun id =>
      if id = "10" then .ok [{ BuildID := "b1" }] else .ok [{ BuildID := "b2" }]
    ParseDetailedReport := fun id =>
      if id = "b1" then fetchedOk "Region" "EU" []
      else fetchedOk "Business Unit" "Finance" [flawOpen] }

/-- A manual-analysis flaw, open and policy-violating. -/
def flawManual : Flaw :=
  { flawOpen with Issueid := "4", Module := "manual_analysis" }

/-- The flags with `-static` set. -/
def flagsStatic : Flags :=
  { flagsDefault with staticOnly := true }

/-- One application with one usable build whose report lists a manual flaw. -/
def remoteManual : Remote :=
  { ParseAppList := .ok [{ AppID := "10", AppName := "shop" }]
    ParseBuildList := fun _ => .ok [{ BuildID := "b1" }]
    ParseDetailedReport := fun _ => fetchedOk "Business Unit" "Finance" [flawManual] }

/-- The flags with `-nonpv` set. -/
def flagsNonPV : Flags :=
  { flagsDefault with inclNonPV := true }

/-- A flaw that does not affect policy compliance. -/
def flawNonPV : Flaw :=
  { flawOpen with Issueid := "5", AffectsPolicyCompliance := "false" }

/-- One application with one usable build whose report lists a policy-violating flaw
and a flaw that does not affect policy compliance. -/
def remoteMixed : Remote :=
  { ParseAppList := .ok [{ AppID := "10", AppName := "shop" }]
    ParseBuildList := fun _ => .ok [{ BuildID := "b1" }]
    ParseDetailedReport := fun _ => fetchedOk "Business Unit" "Finance" [flawOpen, flawNonPV] }

/-- A state inside the flaw loop of application `20`: build `b7` is selected, and the
three per-flaw variables still hold the values of a dynamic flaw handled before. -/
def stateAfterDynamic : State :=
  { State.init with
    recentBuild := "b7", detailedReport := reportFull,
    appCustomFields := [{ Name := "Business Unit", Value := "Finance" }],
    appWithFlawsCounter := 1,
    scanType := "dynamic", scanTargetURL := "https://x/y", scanSubmittedDate := "2018-02-02" }

/-- How a computation ended: `none` when it completed. -/
def haltKind : Exec → Option Halt
  | .ok _ => none
  | .error e => some e.kind

/-- Whether the deferred `writer.Flush()` and `resultsFile.Close()` (lines 70 and 74)
run when `main` ends: they run when `main` returns and when it panics; `log.Fatal` exits
the process at once, without running deferred calls. -/
def deferredRun : Exec → Bool
  | .ok _ => true
  | .error e => decide (e.kind = Halt.panic)

/-- The flags with `-desc` set. -/
def flagsDesc : Flags :=
  { flagsDefault with inclDesc := true }

/-- The flags with both `-static` and `-dynamic` set. -/
def flagsBoth : Flags :=
  { flagsDefault with staticOnly := true, dynamicOnly := true }

/-- A usable fetch result without any custom field. -/
def fetchedNoFields (fs : List Flaw) : Fetched :=
  { report := reportFull, flaws := fs, customFields := [], err := none }

/-- One application whose only build is usable and returns no custom field. -/
def remoteNoFields : Remote :=
  { ParseAppList := .ok [{ AppID := "10", AppName := "shop" }]
    ParseBuildList := fun _ => .ok [{ BuildID := "b1" }]
    ParseDetailedReport := fun _ => fetchedNoFields [flawOpen] }

/-- Three applications with one usable build and one open flaw each; the build of the
second returns no custom field. -/
def remoteNoFieldsSecond : Remote :=
  { ParseAppList := .ok [{ AppID := "10", AppName := "shop" }, { AppID := "20", AppName := "bank" },
      { AppID := "30", AppName := "mail" }]
    ParseBuildList := fun id =>
      if id = "10" then .ok [{ BuildID := "b1" }]
      else if id = "20" then .ok [{ BuildID := "b2" }] else .ok [{ BuildID := "b3" }]
    ParseDetailedReport := fun id =>
      if id = "b2" then fetchedNoFields [flawOpen]
      else fetchedOk "Business Unit" "Finance" [flawOpen] }

/-- Two applications: the first has a usable build with one open flaw, the build list
of the second cannot be fetched. -/
def remoteListFails : Remote :=
  { ParseAppList := .ok [{ AppID := "10", AppName := "shop" }, { AppID := "20", AppName := "bank" }]
    ParseBuildList := fun id =>
      if id = "10" then .ok [{ BuildID := "b1" }] else .error "build list unavailable"
    ParseDetailedReport := fun _ => fetchedOk "Business Unit" "Finance" [flawOpen] }

/-- A third open, policy-violating static flaw. -/
def flawOpenLate : Flaw :=
  { flawOpen with Issueid := "6" }

/-- One application with one usable build whose report lists a policy-violating flaw, a
flaw that does not affect policy compliance, and another policy-violating flaw. -/
def remoteThree : Remote :=
  { ParseAppList := .ok [{ AppID := "10", AppName := "shop" }]
    ParseBuildList := fun _ => .ok [{ BuildID := "b1" }]
    ParseDetailedReport := fun _ =>
      fetchedOk "Business Unit" "Finance" [flawOpen, flawNonPV, flawOpenLate] }

/-- A system on which the first three `Write` calls succeed and every later one fails
(the disk is full after three records). -/
def sysFullAfterThree : Sys :=
  { createOk := true, writeOk := fun n => decide (n < 3) }

/-- One application with one usable build whose report has no dynamic module but lists
a dynamic flaw followed by a static flaw. -/
def remoteNoModule : Remote :=
  { ParseAppList := .ok [{ AppID := "10", AppName := "shop" }]
    ParseBuildList := fun _ => .ok [{ BuildID := "b1" }]
    ParseDetailedReport := fun _ =>
      { report := DetReport.zero, flaws := [flawDynamic, flawOpen],
        customFields := [{ Name := "Business Unit", Value := "Finance" }], err := none } }

/-- The flaws of the selected build of an application, before the filter. -/
def flawsOf (R : Remote) (a : App) : List Flaw :=
  match selected R a with
  | none => []
  | some b => (R.ParseDetailedReport b.BuildID).flaws

/-- The unique id the program forms for a flaw of an application (line 162). -/
def uniqueId (a : App) (f : Flaw) : String :=
  a.AppID ++ "-" ++ f.Issueid

/-- The `unique_id` cells (cell 4) of a list of data records. -/
def uniqueIds (rows : List (List String)) : List (Option String) :=
  rows.map (fun r => r[4]?)

/-- Two applications with distinct ids `1` and `1-2`, each with one usable build and one
open flaw, with issue ids `2-3` and `3`. -/
def remoteHyphen : Remote :=
  { ParseAppList := .ok [{ AppID := "1", AppName := "shop" }, { AppID := "1-2", AppName := "bank" }]
    ParseBuildList := fun id =>
      if id = "1" then .ok [{ BuildID := "b1" }] else .ok [{ BuildID := "b2" }]
    ParseDetailedReport := fun id =>
      if id = "b1" then fetchedOk "Business Unit" "Finance" [{ flawOpen with Issueid := "2-3" }]
      else fetchedOk "Business Unit" "Finance" [{ flawOpen with Issueid := "3" }] }

/-- The records of the flaws of the selected build of an application that meet none of
the five drop rules of the specification, in flaw-list order. -/
def keptRows (fl : Flags) (R : Remote) (a : App) : List (List String) :=
  match selected R a with
  | none => []
  | some b =>
    ((R.ParseDetailedReport b.BuildID).flaws.filter (fun f => decide (¬ specDrop fl f))).filterMap
      (specRow fl a b.BuildID (R.ParseDetailedReport b.BuildID).report
        (R.ParseDetailedReport b.BuildID).customFields)

/-! ## Build selection: lemmas -/

theorem index_nat {α : Type} (xs : List α) (i : Nat) : index xs (i : Int) = xs[i]? := by
  unfold index
  by_cases h : i < xs.length
  · simp [h]
  · simp [h, List.getElem?_eq_none (Nat.le_of_not_lt h)]

theorem index_from_end (bl : List Build) (i : Nat) (h : i < bl.length) :
    index bl ((bl.length : Int) - ((i : Int) + 1)) = bl.reverse[i]? := by
  have e : ((bl.length : Int) - ((i : Int) + 1)) = ((bl.length - 1 - i : Nat) : Int) := by
    omega
  rw [e, index_nat, List.getElem?_reverse h]

theorem fallbackStep_eq (R : Remote) (bl : List Build) (i : Nat) (s : State) :
    fallbackStep R bl ((i : Int) + 1) s = .ok (match bl.reverse[i + 1]? with
      | some b => if s.errorCheck ≠ none then assignReport R b.BuildID s else s
      | none => s) := by
  unfold fallbackStep
  by_cases h : i + 1 < bl.length
  · have hi := index_from_end bl (i + 1) h
    have hlt : (bl.length : Int) > (i : Int) + 1 := by omega
    have hr : i + 1 < bl.reverse.length := by simpa using h
    push_cast at hi
    rw [hi, List.getElem?_eq_getElem hr]
    by_cases he : s.errorCheck = none
    · simp [he]
    · simp [he, hlt]
  · have hge : ¬ ((bl.length : Int) > (i : Int) + 1) := by omega
    have hr : bl.reverse.length ≤ i + 1 := by simpa using Nat.le_of_not_lt h
    simp [hge, List.getElem?_eq_none hr]

theorem fallbackLoop_eq (R : Remote) (bl : List Build) (s : State) :
    fallbackLoop R bl [1, 2, 3] s = .ok (walk R ((bl.reverse.drop 1).take 3) s) := by
  have h1 : ∀ t : State, fallbackStep R bl 1 t = .ok (match bl.reverse[1]? with
      | some b => if t.errorCheck ≠ none then assignReport R b.BuildID t else t
      | none => t) := fun t => by
    have := fallbackStep_eq R bl 0 t
    simpa using this
  have h2 : ∀ t : State, fallbackStep R bl 2 t = .ok (match bl.reverse[2]? with
      | some b => if t.errorCheck ≠ none then assignReport R b.BuildID t else t
      | none => t) := fun t => by
    have := fallbackStep_eq R bl 1 t
    have e : ((1 : Nat) : Int) + 1 = 2 := by norm_num
    rw [e] at this
    exact this
  have h3 : ∀ t : State, fallbackStep R bl 3 t = .ok (match bl.reverse[3]? with
      | some b => if t.errorCheck ≠ none then assignReport R b.BuildID t else t
      | none => t) := fun t => by
    have := fallbackStep_eq R bl 2 t
    have e : ((2 : Nat) : Int) + 1 = 3 := by norm_num
    rw [e] at this
    exact this
  simp only [fallbackLoop, h1, h2, h3]
  generalize bl.reverse = r
  rcases r with _ | ⟨a, _ | ⟨b, _ | ⟨c, _ | ⟨d, t⟩⟩⟩⟩ <;> simp [walk]

theorem selectBuild_eq (R : Remote) (bl : List Build) (s : State) :
    selectBuild R bl s = .ok (selectResult R bl s) := by
  unfold selectBuild selectResult probes
  by_cases hlen : bl.length = 0
  · have : bl = [] := List.length_eq_zero.mp hlen
    subst this
    simp
  · have h0 : index bl ((bl.length : Int) - 1) = bl.reverse[0]? := by
      have := index_from_end bl 0 (Nat.pos_of_ne_zero hlen)
      simpa using this
    rw [if_neg hlen, h0]
    simp only [fallbackLoop_eq]
    generalize hr : bl.reverse = r
    rcases r with _ | ⟨a, t⟩
    · exact absurd (by simpa using congrArg List.length hr) hlen
    · simp only [List.getElem?_cons_zero, List.drop_succ_cons, List.drop_zero,
        List.take_succ_cons]
      split <;> rfl

theorem walk_inert (R : Remote) (ps : List Build) (s : State) (h : s.errorCheck = none) :
    walk R ps s = s := by
  induction ps with
  | nil => rfl
  | cons b rest ih => simp [walk, h, ih]

theorem walk_some (R : Remote) (ps : List Build) (b : Build) (s : State)
    (hf : ps.find? (usable R) = some b) (h : s.errorCheck ≠ none) :
    walk R ps s
      = { assignReport R b.BuildID s with fetchLog := s.fetchLog ++ fetchedUpTo R ps } := by
  induction ps generalizing s with
  | nil => simp at hf
  | cons x rest ih =>
    simp only [walk, if_pos h]
    by_cases hx : usable R x = true
    · have hxb : x = b := by simpa [List.find?, hx] using hf
      subst hxb
      rw [walk_inert]
      · simp [fetchedUpTo, hx, assignReport]
      · simpa [usable, assignReport] using hx
    · have hrest : rest.find? (usable R) = some b := by simpa [List.find?, hx] using hf
      have he : (assignReport R x.BuildID s).errorCheck ≠ none := by
        simpa [usable, assignReport] using hx
      rw [ih _ hrest he]
      simp [fetchedUpTo, hx, assignReport]

theorem walk_log (R : Remote) (ps : List Build) (s : State) (h : s.errorCheck ≠ none) :
    (walk R ps s).fetchLog = s.fetchLog ++ fetchedUpTo R ps := by
  induction ps generalizing s with
  | nil => simp [walk, fetchedUpTo]
  | cons x rest ih =>
    simp only [walk, if_pos h]
    by_cases hx : usable R x = true
    · rw [walk_inert]
      · simp [fetchedUpTo, hx, assignReport]
      · simpa [usable, assignReport] using hx
    · have he : (assignReport R x.BuildID s).errorCheck ≠ none := by
        simpa [usable, assignReport] using hx
      rw [ih _ he]
      simp [fetchedUpTo, hx, assignReport]

theorem walk_none (R : Remote) (ps : List Build) (s : State)
    (hf : ps.find? (usable R) = none) (h : s.errorCheck ≠ none) :
    (walk R ps s).errorCheck ≠ none := by
  induction ps generalizing s with
  | nil => simpa [walk] using h
  | cons x rest ih =>
    simp only [walk, if_pos h]
    have hx : ¬ usable R x = true := by
      intro hx
      simp [List.find?, hx] at hf
    have hrest : rest.find? (usable R) = none := by simpa [List.find?, hx] using hf
    apply ih _ hrest
    simpa [usable, assignReport] using hx

/-- What the selector leaves untouched: the encoder, the header counter and the
per-flaw variables. -/
theorem walk_frame (R : Remote) (ps : List Build) (s : State) :
    (walk R ps s).out = s.out ∧ (walk R ps s).nwrites = s.nwrites ∧
    (walk R ps s).appWithFlawsCounter = s.appWithFlawsCounter ∧
    (walk R ps s).appSkip = s.appSkip := by
  induction ps generalizing s with
  | nil => simp [walk]
  | cons x rest ih =>
    simp only [walk]
    by_cases h : s.errorCheck = none
    · simpa [h] using ih s
    · simpa [h, assignReport] using ih (assignReport R x.BuildID s)

theorem selectResult_frame (R : Remote) (bl : List Build) (s : State) :
    (selectResult R bl s).out = s.out ∧ (selectResult R bl s).nwrites = s.nwrites ∧
    (selectResult R bl s).appWithFlawsCounter = s.appWithFlawsCounter := by
  unfold selectResult
  split
  · simp
  · rename_i a rest _
    have hw := walk_frame R rest (assignReport R a.BuildID s)
    have h1 : (walk R rest (assignReport R a.BuildID s)).out = s.out := hw.1
    have h2 : (walk R rest (assignReport R a.BuildID s)).nwrites = s.nwrites := hw.2.1
    have h3 : (walk R rest (assignReport R a.BuildID s)).appWithFlawsCounter
        = s.appWithFlawsCounter := hw.2.2.1
    simp only []
    split <;> exact ⟨h1, h2, h3⟩

theorem selectResult_some (R : Remote) (bl : List Build) (b : Build) (s : State)
    (hf : firstUsable R bl = some b) :
    selectResult R bl s
      = { assignReport R b.BuildID s with
          fetchLog := s.fetchLog ++ fetchedUpTo R (probes bl) } := by
  unfold selectResult
  unfold firstUsable at hf
  split
  · rename_i hp
    simp [hp] at hf
  · rename_i a rest hp
    rw [hp] at hf
    have hw : walk R rest (assignReport R a.BuildID s)
        = walk R (a :: rest) { s with errorCheck := some "" } := by
      simp [walk, assignReport]
    have hs := walk_some R (a :: rest) b { s with errorCheck := some "" } hf (by simp)
    have he : (R.ParseDetailedReport b.BuildID).err = none := by
      have := List.find?_some hf
      simpa [usable] using this
    simp only [hw, hs]
    rw [if_neg (by simp [assignReport, he]), hp]
    rfl

theorem selectResult_none (R : Remote) (bl : List Build) (s : State)
    (hf : firstUsable R bl = none) :
    (selectResult R bl s).appSkip = true := by
  unfold selectResult
  unfold firstUsable at hf
  split
  · rfl
  · rename_i a rest hp
    rw [hp] at hf
    have hw : walk R rest (assignReport R a.BuildID s)
        = walk R (a :: rest) { s with errorCheck := some "" } := by
      simp [walk, assignReport]
    have hn := walk_none R (a :: rest) { s with errorCheck := some "" } hf (by simp)
    simp only [hw]
    rw [if_pos hn]

theorem selectResult_skip_iff (R : Remote) (bl : List Build) (s : State)
    (hs : s.appSkip = false) :
    (selectResult R bl s).appSkip = true ↔ firstUsable R bl = none := by
  constructor
  · intro h
    cases hf : firstUsable R bl with
    | none => rfl
    | some b =>
      rw [selectResult_some R bl b s hf] at h
      simp [assignReport, hs] at h
  · exact selectResult_none R bl s

/-! ## Flaw loop: lemmas -/

theorem index_zero {α : Type} (xs : List α) : index xs 0 = xs.head? := by
  cases xs <;> simp [index]

theorem Kept.refl (s : State) : Kept s s := ⟨rfl, rfl, rfl, rfl, rfl, rfl⟩

theorem Kept.trans {s t u : State} (h1 : Kept s t) (h2 : Kept t u) : Kept s u := by
  obtain ⟨a1, a2, a3, a4, a5, a6⟩ := h1
  obtain ⟨b1, b2, b3, b4, b5, b6⟩ := h2
  exact ⟨b1.trans a1, b2.trans a2, b3.trans a3, b4.trans a4, b5.trans a5, b6.trans a6⟩

theorem skipFlaw_iff (fl : Flags) (f : Flaw) : skipFlaw fl f = true ↔ specDrop fl f := by
  unfold skipFlaw specDrop
  simp only [Bool.or_eq_true, Bool.and_eq_true, beq_iff_eq, bne_iff_ne, or_assoc]

theorem flawBody_skip (fl : Flags) (W : Sys) (app : App) (f : Flaw) (s : State)
    (h : skipFlaw fl f = true) : flawBody fl W app f s = .ok (resetScan s) := by
  simp [flawBody, h]

theorem determineScanType_eq (f : Flaw) (s : State) :
    determineScanType f (resetScan s) = match specScan s.detailedReport f with
      | some x => .ok (scanned s x)
      | none => .error { kind := .panic, st := { resetScan s with scanType := "dynamic" } } := by
  unfold determineScanType specScan
  by_cases hd : f.Module = "dynamic_analysis"
  · rw [if_pos hd, if_pos hd, index_zero]
    cases hm : s.detailedReport.DynamicAnalysis.Modules.Module.head? with
    | none => simp [resetScan, hm]
    | some m => simp [resetScan, hm, scanned]
  · rw [if_neg hd, if_neg hd]
    by_cases hm : f.Module = "manual_analysis"
    · rw [if_pos hm, if_pos hm]
      rfl
    · rw [if_neg hm, if_neg hm]
      rfl

theorem entry_eq (fl : Flags) (app : App) (c : CustomField) (f : Flaw) (s : State)
    (x : String × String × String) :
    specRow fl app s.recentBuild s.detailedReport (c :: []) f = some (entry fl app c f (scanned s x))
      ∨ specScan s.detailedReport f ≠ some x := by
  by_cases hx : specScan s.detailedReport f = some x
  · left
    obtain ⟨t, u, d⟩ := x
    unfold specRow entry specCells
    rw [hx]
    simp only [List.head?_cons, scanned]
    split <;> simp
  · right
    exact hx

theorem specRow_head (fl : Flags) (app : App) (b : String) (r : DetReport)
    (cs : List CustomField) (c : CustomField) (f : Flaw) (h : cs.head? = some c) :
    specRow fl app b r cs f = specRow fl app b r (c :: []) f := by
  unfold specRow
  rw [h]
  rfl

theorem flawBody_row (fl : Flags) (W : Sys) (app : App) (f : Flaw) (s : State)
    (row : List String) (h : skipFlaw fl f = false)
    (hrow : specRow fl app s.recentBuild s.detailedReport s.appCustomFields f = some row) :
    ∃ t, flawBody fl W app f s = .ok t ∧ Kept s t ∧ t.nwrites = s.nwrites + 1 ∧
      t.out = s.out ++ (if W.writeOk s.nwrites = true then [{ kind := .data, cells := row }]
        else []) := by
  unfold flawBody
  simp only [h, Bool.false_eq_true, if_false, determineScanType_eq]
  cases hx : specScan s.detailedReport f with
  | none => simp [specRow, hx] at hrow
  | some x =>
    cases hc : s.appCustomFields.head? with
    | none =>
      obtain ⟨t, u, d⟩ := x
      simp [specRow, hx, hc] at hrow
    | some c =>
      have hidx : index (scanned s x).appCustomFields 0 = some c := by
        rw [index_zero]
        exact hc
      simp only [hidx]
      rw [specRow_head fl app _ _ _ c f hc] at hrow
      rcases entry_eq fl app c f s x with he | he
      · rw [he] at hrow
        injection hrow with hrow
        subst hrow
        by_cases hw : W.writeOk s.nwrites = true
        · exact ⟨_, rfl, by simp [write, scanned, hw, Kept], by simp [write, scanned, hw],
            by simp [write, scanned, hw]⟩
        · exact ⟨_, rfl, by simp [write, scanned, hw, Kept], by simp [write, scanned, hw],
            by simp [write, scanned, hw]⟩
      · exact absurd hx he

theorem flawBody_panic (fl : Flags) (W : Sys) (app : App) (f : Flaw) (s : State)
    (h : skipFlaw fl f = false)
    (hrow : specRow fl app s.recentBuild s.detailedReport s.appCustomFields f = none) :
    ∃ t, flawBody fl W app f s = .error { kind := .panic, st := t } ∧ t.out = s.out ∧
      t.nwrites = s.nwrites := by
  unfold flawBody
  simp only [h, Bool.false_eq_true, if_false, determineScanType_eq]
  cases hx : specScan s.detailedReport f with
  | none => exact ⟨_, rfl, rfl, rfl⟩
  | some x =>
    cases hc : s.appCustomFields.head? with
    | none =>
      have hidx : index (scanned s x).appCustomFields 0 = none := by
        rw [index_zero]
        exact hc
      simp only [hidx]
      exact ⟨_, rfl, rfl, rfl⟩
    | some c =>
      obtain ⟨t, u, d⟩ := x
      simp [specRow, hx, hc] at hrow

theorem flawLoop_out (fl : Flags) (W : Sys) (app : App) (fs : List Flaw) (s : State) :
    (final (flawLoop fl W app fs s)).out
      = s.out ++ emitted fl W app s.recentBuild s.detailedReport s.appCustomFields fs
          s.nwrites := by
  induction fs generalizing s with
  | nil => simp [flawLoop, final, emitted]
  | cons f rest ih =>
    unfold flawLoop emitted
    by_cases hs : skipFlaw fl f = true
    · rw [flawBody_skip fl W app f s hs, if_pos hs]
      exact ih (resetScan s)
    · have hs2 : skipFlaw fl f = false := by simpa using hs
      rw [if_neg hs]
      cases hrow : specRow fl app s.recentBuild s.detailedReport s.appCustomFields f with
      | none =>
        obtain ⟨t, ht, hout, _⟩ := flawBody_panic fl W app f s hs2 hrow
        simp [ht, final, hout]
      | some row =>
        obtain ⟨t, ht, hk, hn, hout⟩ := flawBody_row fl W app f s row hs2 hrow
        obtain ⟨k1, k2, k3, _, _, _⟩ := hk
        simp only [ht]
        rw [ih t, hout, k1, k2, k3, hn, List.append_assoc]

theorem flawLoop_ok (fl : Flags) (W : Sys) (app : App) (fs : List Flaw) (s t : State)
    (h : flawLoop fl W app fs s = .ok t) :
    Kept s t ∧ ∀ f ∈ fs, skipFlaw fl f = false →
      (specRow fl app s.recentBuild s.detailedReport s.appCustomFields f).isSome = true := by
  induction fs generalizing s with
  | nil =>
    simp only [flawLoop, Except.ok.injEq] at h
    subst h
    exact ⟨Kept.refl s, by simp⟩
  | cons f rest ih =>
    unfold flawLoop at h
    by_cases hs : skipFlaw fl f = true
    · rw [flawBody_skip fl W app f s hs] at h
      obtain ⟨hk, hall⟩ := ih (resetScan s) h
      refine ⟨hk, ?_⟩
      intro g hg hgs
      rcases List.mem_cons.mp hg with rfl | hg
      · rw [hs] at hgs
        exact absurd hgs (by simp)
      · exact hall g hg hgs
    · have hs2 : skipFlaw fl f = false := by simpa using hs
      cases hrow : specRow fl app s.recentBuild s.detailedReport s.appCustomFields f with
      | none =>
        obtain ⟨u, hu, _, _⟩ := flawBody_panic fl W app f s hs2 hrow
        simp [hu] at h
      | some row =>
        obtain ⟨u, hu, hk, _, _⟩ := flawBody_row fl W app f s row hs2 hrow
        simp only [hu] at h
        obtain ⟨hk2, hall⟩ := ih u h
        refine ⟨hk.trans hk2, ?_⟩
        intro g hg _
        rcases List.mem_cons.mp hg with rfl | hg
        · simp [hrow]
        · have := hall g hg ‹_›
          obtain ⟨k1, k2, k3, _, _, _⟩ := hk
          rw [k1, k2, k3] at this
          exact this

theorem flawLoop_halt (fl : Flags) (W : Sys) (app : App) (fs : List Flaw) (s : State)
    (e : Stop) (h : flawLoop fl W app fs s = .error e) : e.kind = .panic := by
  induction fs generalizing s with
  | nil => simp [flawLoop] at h
  | cons f rest ih =>
    unfold flawLoop at h
    by_cases hs : skipFlaw fl f = true
    · rw [flawBody_skip fl W app f s hs] at h
      exact ih _ h
    · have hs2 : skipFlaw fl f = false := by simpa using hs
      cases hrow : specRow fl app s.recentBuild s.detailedReport s.appCustomFields f with
      | none =>
        obtain ⟨u, hu, _, _⟩ := flawBody_panic fl W app f s hs2 hrow
        simp only [hu, Except.error.injEq] at h
        rw [← h]
      | some row =>
        obtain ⟨u, hu, _, _, _⟩ := flawBody_row fl W app f s row hs2 hrow
        simp only [hu] at h
        exact ih _ h

theorem emitted_mem (fl : Flags) (W : Sys) (app : App) (b : String) (r : DetReport)
    (cs : List CustomField) (fs : List Flaw) (n : Nat) (x : OutRow)
    (hx : x ∈ emitted fl W app b r cs fs n) :
    x.kind = .data ∧ ∃ f ∈ fs, skipFlaw fl f = false ∧ specRow fl app b r cs f = some x.cells := by
  induction fs generalizing n with
  | nil => simp [emitted] at hx
  | cons f rest ih =>
    unfold emitted at hx
    by_cases hs : skipFlaw fl f = true
    · rw [if_pos hs] at hx
      obtain ⟨h1, g, hg, h2⟩ := ih n hx
      exact ⟨h1, g, List.mem_cons_of_mem _ hg, h2⟩
    · have hs2 : skipFlaw fl f = false := by simpa using hs
      rw [if_neg hs] at hx
      cases hrow : specRow fl app b r cs f with
      | none => simp [hrow] at hx
      | some row =>
        simp only [hrow, List.mem_append] at hx
        rcases hx with hx | hx
        · by_cases hw : W.writeOk n = true
          · simp only [hw, if_true, List.mem_singleton] at hx
            subst hx
            exact ⟨rfl, f, List.mem_cons_self _ _, hs2, hrow⟩
          · simp [hw] at hx
        · obtain ⟨h1, g, hg, h2⟩ := ih (n + 1) hx
          exact ⟨h1, g, List.mem_cons_of_mem _ hg, h2⟩

theorem emitted_all (fl : Flags) (W : Sys) (app : App) (b : String) (r : DetReport)
    (cs : List CustomField) (fs : List Flaw) (n : Nat) (hw : ∀ k, W.writeOk k = true)
    (hall : ∀ f ∈ fs, skipFlaw fl f = false → (specRow fl app b r cs f).isSome = true) :
    emitted fl W app b r cs fs n
      = ((fs.filter (fun f => !skipFlaw fl f)).filterMap (specRow fl app b r cs)).map
          (fun c => { kind := RowKind.data, cells := c }) := by
  induction fs generalizing n with
  | nil => simp [emitted]
  | cons f rest ih =>
    have ih2 := fun k => ih k (fun g hg => hall g (List.mem_cons_of_mem _ hg))
    unfold emitted
    by_cases hs : skipFlaw fl f = true
    · rw [if_pos hs, ih2]
      simp [List.filter, hs]
    · have hs2 : skipFlaw fl f = false := by simpa using hs
      rw [if_neg hs]
      have hsome := hall f (List.mem_cons_self _ _) hs2
      cases hrow : specRow fl app b r cs f with
      | none => simp [hrow] at hsome
      | some row =>
        simp only [hw, if_true, ih2]
        simp [List.filter, hs2, hrow]

/-! ## Application loop: lemmas -/

theorem printApp_skip (fl : Flags) (W : Sys) (app : App) (s : State) (h : s.appSkip = true) :
    printApp fl W app s = .ok s := by
  simp [printApp, h]

theorem processApp_out (fl : Flags) (R : Remote) (W : Sys) (app : App) (s : State) :
    (final (processApp fl R W app s)).out
      = s.out ++ appOut fl R W app s.appWithFlawsCounter s.nwrites := by
  unfold processApp appOut selected
  cases hb : R.ParseBuildList app.AppID with
  | error e => simp [final]
  | ok bl =>
    simp only [selectBuild_eq]
    cases hf : firstUsable R bl with
    | none =>
      have hskip := selectResult_none R bl { s with appSkip := false } hf
      have hfr := selectResult_frame R bl { s with appSkip := false }
      rw [printApp_skip fl W app _ hskip]
      simp [final, hfr.1]
    | some b =>
      rw [selectResult_some R bl b _ hf]
      unfold printApp writeHeader
      simp only [assignReport, if_true, index_zero]
      by_cases hc : s.appWithFlawsCounter = 0
      · simp only [hc, zero_add, if_true]
        cases hcf : (R.ParseDetailedReport b.BuildID).customFields.head? with
        | none => simp [final]
        | some c =>
          by_cases hw : W.writeOk s.nwrites = true
          · simp only [write, hw, if_true]
            rw [flawLoop_out]
            simp
          · simp [write, hw, final]
      · have hc1 : ¬ (s.appWithFlawsCounter + 1 = 1) := by omega
        simp only [hc1, hc, if_false]
        rw [flawLoop_out]

/-- What a completed application step tells: the build list was fetched, and if a build
was selected the header write (when due) succeeded and every surviving flaw has a
record. -/
theorem processApp_ok (fl : Flags) (R : Remote) (W : Sys) (app : App) (s t : State)
    (h : processApp fl R W app s = .ok t) :
    ∃ bl, R.ParseBuildList app.AppID = .ok bl ∧
      match firstUsable R bl with
      | none => t.appWithFlawsCounter = s.appWithFlawsCounter
      | some b =>
        t.appWithFlawsCounter = s.appWithFlawsCounter + 1 ∧
        (s.appWithFlawsCounter = 0 →
          ∃ c, (R.ParseDetailedReport b.BuildID).customFields.head? = some c ∧
            W.writeOk s.nwrites = true) ∧
        ∀ f ∈ (R.ParseDetailedReport b.BuildID).flaws, skipFlaw fl f = false →
          (specRow fl app b.BuildID (R.ParseDetailedReport b.BuildID).report
            (R.ParseDetailedReport b.BuildID).customFields f).isSome = true := by
  unfold processApp at h
  cases hb : R.ParseBuildList app.AppID with
  | error e => simp [hb] at h
  | ok bl =>
    refine ⟨bl, rfl, ?_⟩
    simp only [hb, selectBuild_eq] at h
    cases hf : firstUsable R bl with
    | none =>
      have hskip := selectResult_none R bl { s with appSkip := false } hf
      have hfr := selectResult_frame R bl { s with appSkip := false }
      rw [printApp_skip fl W app _ hskip] at h
      simp only [Except.ok.injEq] at h
      subst h
      exact hfr.2.2
    | some b =>
      rw [selectResult_some R bl b _ hf] at h
      unfold printApp writeHeader at h
      simp only [assignReport, if_true, index_zero] at h
      by_cases hc : s.appWithFlawsCounter = 0
      · simp only [hc, zero_add, if_true] at h
        cases hcf : (R.ParseDetailedReport b.BuildID).customFields.head? with
        | none => simp [hcf] at h
        | some c =>
          by_cases hw : W.writeOk s.nwrites = true
          · simp only [hcf, write, hw, if_true] at h
            obtain ⟨hk, hall⟩ := flawLoop_ok fl W app _ _ _ h
            refine ⟨?_, fun _ => ⟨c, hcf, hw⟩, hall⟩
            rw [hk.2.2.2.2.1, hc]
          · simp [hcf, write, hw] at h
      · have hc1 : ¬ (s.appWithFlawsCounter + 1 = 1) := by omega
        simp only [hc1, if_false] at h
        obtain ⟨hk, hall⟩ := flawLoop_ok fl W app _ _ _ h
        exact ⟨hk.2.2.2.2.1, fun h0 => absurd h0 hc, hall⟩

theorem emitted_allData (fl : Flags) (W : Sys) (app : App) (b : String) (r : DetReport)
    (cs : List CustomField) (fs : List Flaw) (n : Nat) :
    allData (emitted fl W app b r cs fs n) :=
  fun x hx => (emitted_mem fl W app b r cs fs n x hx).1

theorem appOut_pos (fl : Flags) (R : Remote) (W : Sys) (a : App) (cnt n : Nat)
    (h : cnt ≠ 0) : allData (appOut fl R W a cnt n) := by
  unfold appOut
  cases selected R a with
  | none => intro x hx; simp at hx
  | some b =>
    simp only [h, if_false]
    exact emitted_allData _ _ _ _ _ _ _ _

theorem appOut_none (fl : Flags) (R : Remote) (W : Sys) (a : App) (cnt n : Nat)
    (h : selected R a = none) : appOut fl R W a cnt n = [] := by
  simp [appOut, h]

theorem appOut_zero (fl : Flags) (R : Remote) (W : Sys) (a : App) (n : Nat) :
    appOut fl R W a 0 n = [] ∨
      ∃ b c rest, selected R a = some b ∧
        (R.ParseDetailedReport b.BuildID).customFields.head? = some c ∧
        appOut fl R W a 0 n = { kind := .header, cells := headers fl c } :: rest ∧
        allData rest := by
  unfold appOut
  cases hsel : selected R a with
  | none => left; rfl
  | some b =>
    simp only [if_true]
    cases hc : (R.ParseDetailedReport b.BuildID).customFields.head? with
    | none => left; rfl
    | some c =>
      by_cases hw : W.writeOk n = true
      · right
        refine ⟨b, c, emitted fl W a b.BuildID (R.ParseDetailedReport b.BuildID).report
          (R.ParseDetailedReport b.BuildID).customFields
          (R.ParseDetailedReport b.BuildID).flaws (n + 1), rfl, hc, by simp [hw], ?_⟩
        exact emitted_allData _ _ _ _ _ _ _ _
      · left
        simp [hw]

theorem appOut_data (fl : Flags) (R : Remote) (W : Sys) (a : App) (cnt n : Nat) (x : OutRow)
    (hx : x ∈ appOut fl R W a cnt n) (hd : x.kind = .data) :
    ∃ b, selected R a = some b ∧ ∃ f ∈ (R.ParseDetailedReport b.BuildID).flaws,
      skipFlaw fl f = false ∧
      specRow fl a b.BuildID (R.ParseDetailedReport b.BuildID).report
        (R.ParseDetailedReport b.BuildID).customFields f = some x.cells := by
  unfold appOut at hx
  cases hsel : selected R a with
  | none => simp [hsel] at hx
  | some b =>
    refine ⟨b, rfl, ?_⟩
    simp only [hsel] at hx
    by_cases hc : cnt = 0
    · simp only [hc, if_true] at hx
      cases hcf : (R.ParseDetailedReport b.BuildID).customFields.head? with
      | none => simp [hcf] at hx
      | some c =>
        by_cases hw : W.writeOk n = true
        · simp only [hcf, hw, if_true, List.mem_cons] at hx
          rcases hx with hx | hx
          · rw [hx] at hd
            exact absurd hd (by simp)
          · exact (emitted_mem _ _ _ _ _ _ _ _ _ hx).2
        · simp [hcf, hw] at hx
    · simp only [hc, if_false] at hx
      exact (emitted_mem _ _ _ _ _ _ _ _ _ hx).2

/-- The header counter after a completed application step. -/
theorem processApp_counter (fl : Flags) (R : Remote) (W : Sys) (app : App) (s t : State)
    (h : processApp fl R W app s = .ok t) :
    (selected R app = none ∧ t.appWithFlawsCounter = s.appWithFlawsCounter) ∨
    (∃ b, selected R app = some b ∧ t.appWithFlawsCounter = s.appWithFlawsCounter + 1) := by
  obtain ⟨bl, hbl, hm⟩ := processApp_ok fl R W app s t h
  cases hf : firstUsable R bl with
  | none =>
    rw [hf] at hm
    left
    exact ⟨by simp [selected, hbl, hf], hm⟩
  | some b =>
    rw [hf] at hm
    right
    exact ⟨b, by simp [selected, hbl, hf], hm.1⟩

theorem appLoop_pos (fl : Flags) (R : Remote) (W : Sys) (apps : List App) (s : State)
    (h : s.appWithFlawsCounter ≠ 0) :
    ∃ rows, (final (appLoop fl R W apps s)).out = s.out ++ rows ∧ allData rows ∧
      ∀ x ∈ rows, ∃ a ∈ apps, ∃ cnt n, x ∈ appOut fl R W a cnt n := by
  induction apps generalizing s with
  | nil => exact ⟨[], by simp [appLoop, final], by intro x hx; simp at hx, by simp⟩
  | cons a rest ih =>
    have hout := processApp_out fl R W a s
    have hdat := appOut_pos fl R W a s.appWithFlawsCounter s.nwrites h
    unfold appLoop
    cases hp : processApp fl R W a s with
    | error e =>
      rw [hp] at hout
      refine ⟨_, hout, hdat, ?_⟩
      intro x hx
      exact ⟨a, List.mem_cons_self _ _, _, _, hx⟩
    | ok t =>
      rw [hp] at hout
      have hcnt : t.appWithFlawsCounter ≠ 0 := by
        rcases processApp_counter fl R W a s t hp with ⟨_, hc⟩ | ⟨_, _, hc⟩ <;> omega
      obtain ⟨rows, hr, hd, hm⟩ := ih t hcnt
      refine ⟨appOut fl R W a s.appWithFlawsCounter s.nwrites ++ rows, ?_, ?_, ?_⟩
      · simp only [hr]
        simp only [final] at hout
        rw [hout, List.append_assoc]
      · intro x hx
        rcases List.mem_append.mp hx with hx | hx
        · exact hdat x hx
        · exact hd x hx
      · intro x hx
        rcases List.mem_append.mp hx with hx | hx
        · exact ⟨a, List.mem_cons_self _ _, _, _, hx⟩
        · obtain ⟨a2, ha2, rest2⟩ := hm x hx
          exact ⟨a2, List.mem_cons_of_mem _ ha2, rest2⟩

/-- From a state in which no application was printed yet, the loop adds nothing, or the
header of the first application with a selected build followed by data records only. -/
theorem appLoop_zero (fl : Flags) (R : Remote) (W : Sys) (apps : List App) (s : State)
    (h : s.appWithFlawsCounter = 0) :
    ∃ rows, (final (appLoop fl R W apps s)).out = s.out ++ rows ∧
      (rows = [] ∨ ∃ pre a post b c rest, apps = pre ++ a :: post ∧
        (∀ x ∈ pre, selected R x = none) ∧ selected R a = some b ∧
        (R.ParseDetailedReport b.BuildID).customFields.head? = some c ∧
        rows = { kind := .header, cells := headers fl c } :: rest ∧ allData rest ∧
        ∀ x ∈ rest, ∃ a2 ∈ apps, ∃ cnt n, x ∈ appOut fl R W a2 cnt n) := by
  induction apps generalizing s with
  | nil => exact ⟨[], by simp [appLoop, final], Or.inl rfl⟩
  | cons a rest ih =>
    have hout := processApp_out fl R W a s
    rw [h] at hout
    unfold appLoop
    cases hp : processApp fl R W a s with
    | error e =>
      rw [hp] at hout
      refine ⟨_, hout, ?_⟩
      rcases appOut_zero fl R W a s.nwrites with h0 | ⟨b, c, tl, hsel, hc, htl, hd⟩
      · left
        exact h0
      · right
        refine ⟨[], a, rest, b, c, tl, rfl, by simp, hsel, hc, htl, hd, ?_⟩
        intro x hx
        refine ⟨a, List.mem_cons_self _ _, 0, s.nwrites, ?_⟩
        rw [htl]
        exact List.mem_cons_of_mem _ hx
    | ok t =>
      rw [hp] at hout
      simp only [final] at hout
      rcases processApp_counter fl R W a s t hp with ⟨hsel, hc⟩ | ⟨b, hsel, hc⟩
      · rw [appOut_none fl R W a _ _ hsel, List.append_nil] at hout
        obtain ⟨rows, hr, hcase⟩ := ih t (by omega)
        refine ⟨rows, by rw [← hout]; exact hr, ?_⟩
        rcases hcase with h0 | ⟨pre, a2, post, b, c, tl, hdec, hpre, hsel2, hcf, hrows, hd, hm⟩
        · left
          exact h0
        · right
          refine ⟨a :: pre, a2, post, b, c, tl, by simp [hdec], ?_, hsel2, hcf, hrows, hd, ?_⟩
          · intro x hx
            rcases List.mem_cons.mp hx with rfl | hx
            · exact hsel
            · exact hpre x hx
          · intro x hx
            obtain ⟨a3, ha3, rest3⟩ := hm x hx
            exact ⟨a3, List.mem_cons_of_mem _ ha3, rest3⟩
      · obtain ⟨rows, hr, hd, hm⟩ := appLoop_pos fl R W rest t (by omega)
        rcases appOut_zero fl R W a s.nwrites with h0 | ⟨b2, c, tl, hsel2, hcf, htl, hdtl⟩
        · exfalso
          obtain ⟨bl, hbl, hmm⟩ := processApp_ok fl R W a s t hp
          have hfu : firstUsable R bl = some b := by simpa [selected, hbl] using hsel
          rw [hfu] at hmm
          obtain ⟨c, hc1, hw⟩ := hmm.2.1 h
          simp [appOut, hsel, hc1, hw] at h0
        · refine ⟨appOut fl R W a 0 s.nwrites ++ rows, ?_, ?_⟩
          · rw [hr, hout, List.append_assoc]
          · right
            refine ⟨[], a, rest, b2, c, tl ++ rows, rfl, by simp, hsel2, hcf, by simp [htl],
              ?_, ?_⟩
            · intro x hx
              rcases List.mem_append.mp hx with hx | hx
              · exact hdtl x hx
              · exact hd x hx
            · intro x hx
              rcases List.mem_append.mp hx with hx | hx
              · refine ⟨a, List.mem_cons_self _ _, 0, s.nwrites, ?_⟩
                rw [htl]
                exact List.mem_cons_of_mem _ hx
              · obtain ⟨a3, ha3, rest3⟩ := hm x hx
                exact ⟨a3, List.mem_cons_of_mem _ ha3, rest3⟩

/-! ## Whole runs: lemmas -/

theorem dataRows_append (xs ys : List OutRow) :
    dataRows (xs ++ ys) = dataRows xs ++ dataRows ys := by
  simp [dataRows]

theorem dataRows_header (h : List String) (xs : List OutRow) :
    dataRows ({ kind := .header, cells := h } :: xs) = dataRows xs := by
  simp [dataRows, List.filter]

theorem dataRows_map (cs : List (List String)) :
    dataRows (cs.map (fun c => { kind := RowKind.data, cells := c })) = cs := by
  induction cs with
  | nil => rfl
  | cons c rest ih =>
    simp only [dataRows, List.map_cons, List.filter] at ih ⊢
    simp [ih]

theorem filterMap_length_of_isSome {α β : Type} (g : α → Option β) (l : List α)
    (h : ∀ x ∈ l, (g x).isSome = true) : (l.filterMap g).length = l.length := by
  induction l with
  | nil => rfl
  | cons x rest ih =>
    have hx := h x (List.mem_cons_self _ _)
    cases hgx : g x with
    | none => simp [hgx] at hx
    | some y =>
      simp [List.filterMap_cons, hgx, ih (fun z hz => h z (List.mem_cons_of_mem _ hz))]

/-- With every write succeeding, a completed application step adds exactly the data
records of the application, and each surviving flaw has its record. -/
theorem processApp_exact (fl : Flags) (R : Remote) (W : Sys) (app : App) (s t : State)
    (hw : ∀ n, W.writeOk n = true) (h : processApp fl R W app s = .ok t) :
    dataRows t.out = dataRows s.out ++ appRows fl R app ∧
    (appRows fl R app).length = (survivors fl R app).length := by
  have hout := processApp_out fl R W app s
  rw [h] at hout
  simp only [final] at hout
  obtain ⟨bl, hbl, hm⟩ := processApp_ok fl R W app s t h
  have hsel : selected R app = firstUsable R bl := by simp [selected, hbl]
  cases hf : firstUsable R bl with
  | none =>
    rw [hf] at hsel
    rw [hout, appOut_none fl R W app _ _ hsel]
    simp [appRows, survivors, hsel]
  | some b =>
    rw [hf] at hsel hm
    obtain ⟨_, hhead, hall⟩ := hm
    have hem := emitted_all fl W app b.BuildID (R.ParseDetailedReport b.BuildID).report
      (R.ParseDetailedReport b.BuildID).customFields (R.ParseDetailedReport b.BuildID).flaws
    constructor
    · rw [hout, dataRows_append]
      congr 1
      unfold appOut appRows survivors
      simp only [hsel]
      by_cases hc : s.appWithFlawsCounter = 0
      · obtain ⟨c, hc1, _⟩ := hhead hc
        simp only [hc, if_true, hc1, hw, dataRows_header]
        rw [hem _ hw hall, dataRows_map]
      · simp only [hc, if_false]
        rw [hem _ hw hall, dataRows_map]
    · unfold appRows survivors
      simp only [hsel]
      apply filterMap_length_of_isSome
      intro f hf2
      have := List.mem_filter.mp hf2
      exact hall f this.1 (by simpa using this.2)

theorem appLoop_exact (fl : Flags) (R : Remote) (W : Sys) (apps : List App) (s t : State)
    (hw : ∀ n, W.writeOk n = true) (h : appLoop fl R W apps s = .ok t) :
    dataRows t.out = dataRows s.out ++ apps.flatMap (appRows fl R) ∧
    ∀ a ∈ apps, (appRows fl R a).length = (survivors fl R a).length := by
  induction apps generalizing s with
  | nil =>
    simp only [appLoop, Except.ok.injEq] at h
    subst h
    simp
  | cons a rest ih =>
    unfold appLoop at h
    cases hp : processApp fl R W a s with
    | error e => simp [hp] at h
    | ok u =>
      simp only [hp] at h
      obtain ⟨h1, h2⟩ := processApp_exact fl R W a s u hw hp
      obtain ⟨h3, h4⟩ := ih u h
      constructor
      · rw [h3, h1, List.flatMap_cons, List.append_assoc]
      · intro x hx
        rcases List.mem_cons.mp hx with rfl | hx
        · exact h2
        · exact h4 x hx

/-! ## Build selection (C1, C2) and the records of a run (C3 - C10) -/

theorem probes_getElem (B : List Build) (j : Nat) (x : Build) :
    (probes B)[j]? = some x ↔ j < min B.length 4 ∧ B[B.length - 1 - j]? = some x := by
  unfold probes
  rw [List.getElem?_take]
  by_cases h4 : j < 4
  · by_cases hl : j < B.length
    · rw [if_pos h4, List.getElem?_reverse hl]
      simp [h4, hl]
    · have : B.reverse.length ≤ j := by simpa using Nat.le_of_not_lt hl
      simp [h4, hl, List.getElem?_eq_none this]
  · simp [h4]

theorem find_at {α : Type} (p : α → Bool) (r : List α) (k : Nat) (b : α)
    (hfail : ∀ j, j < k → ∀ x, r[j]? = some x → p x = false)
    (hb : r[k]? = some b) (hp : p b = true) : r.find? p = some b := by
  induction r generalizing k with
  | nil => simp at hb
  | cons y rest ih =>
    cases k with
    | zero =>
      simp only [List.getElem?_cons_zero, Option.some.injEq] at hb
      subst hb
      simp [List.find?, hp]
    | succ k =>
      have hy : p y = false := hfail 0 (Nat.succ_pos k) y (by simp)
      simp only [List.find?, hy]
      apply ih k
      · intro j hj x hx
        exact hfail (j + 1) (Nat.succ_lt_succ hj) x (by simpa using hx)
      · simpa using hb

theorem specRow_cells (fl : Flags) (a : App) (b : String) (r : DetReport)
    (cs : List CustomField) (f : Flaw) (cells : List String)
    (h : specRow fl a b r cs f = some cells) :
    ∃ c t u d, cs.head? = some c ∧ specScan r f = some (t, u, d) ∧
      cells = specCells fl a c b f t u d := by
  unfold specRow at h
  cases hx : specScan r f with
  | none => simp [hx] at h
  | some x =>
    obtain ⟨t, u, d⟩ := x
    cases hc : cs.head? with
    | none => simp [hx, hc] at h
    | some c =>
      simp only [hx, hc, Option.some.injEq] at h
      exact ⟨c, t, u, d, rfl, rfl, h.symm⟩

/-- C1 (build selection).  If the fetch fails for the `k` newest builds of a build list
`B` (`k < min 4 n`) and succeeds for `B[n-1-k]`, the selector completes without the skip
mark, holding exactly the report, flaws and custom fields fetched for `B[n-1-k]` and its
build id; and every data record the application then writes carries that build id in its
`build_id` cell. -/
theorem build_selection (R : Remote) (B : List Build) (s : State) (k : Nat) (b : Build)
    (hk : k < min 4 B.length)
    (hfail : ∀ j, j < k → ∀ x, B[B.length - 1 - j]? = some x →
      (R.ParseDetailedReport x.BuildID).err ≠ none)
    (hb : B[B.length - 1 - k]? = some b)
    (hok : (R.ParseDetailedReport b.BuildID).err = none) :
    ∃ t, selectBuild R B { s with appSkip := false } = .ok t ∧ t.appSkip = false ∧
      t.detailedReport = (R.ParseDetailedReport b.BuildID).report ∧
      t.flaws = (R.ParseDetailedReport b.BuildID).flaws ∧
      t.appCustomFields = (R.ParseDetailedReport b.BuildID).customFields ∧
      t.recentBuild = b.BuildID ∧
      ∀ (fl : Flags) (W : Sys) (app : App), R.ParseBuildList app.AppID = .ok B →
        ∃ rows, (final (processApp fl R W app s)).out = s.out ++ rows ∧
          ∀ x ∈ rows, x.kind = .data → x.cells[3]? = some b.BuildID := by
  have hfu : firstUsable R B = some b := by
    unfold firstUsable
    apply find_at (usable R) (probes B) k b
    · intro j hj x hx
      have hx2 := (probes_getElem B j x).mp hx
      have := hfail j hj x hx2.2
      simpa [usable] using this
    · exact (probes_getElem B k b).mpr ⟨by omega, hb⟩
    · simpa [usable] using hok
  refine ⟨_, selectBuild_eq R B _, ?_⟩
  rw [selectResult_some R B b _ hfu]
  refine ⟨rfl, rfl, rfl, rfl, rfl, ?_⟩
  intro fl W app hbl
  refine ⟨_, processApp_out fl R W app s, ?_⟩
  intro x hx hd
  obtain ⟨b2, hsel, f, _, _, hrow⟩ := appOut_data fl R W app _ _ x hx hd
  have hb2 : b2 = b := by
    have : selected R app = some b := by simp [selected, hbl, hfu]
    rw [this] at hsel
    exact (Option.some.inj hsel).symm
  subst hb2
  obtain ⟨c, t, u, d, _, _, hcells⟩ := specRow_cells _ _ _ _ _ _ _ hrow
  rw [hcells]
  simp [specCells]

/-- Scenario S3 as an instance of C1: three failing builds, the fourth newest selected. -/
theorem build_selection_witness :
    ∃ t, selectBuild remoteS3 buildsFour { State.init with appSkip := false } = .ok t ∧
      t.appSkip = false ∧
      t.detailedReport = (remoteS3.ParseDetailedReport "b0").report ∧
      t.flaws = (remoteS3.ParseDetailedReport "b0").flaws ∧
      t.appCustomFields = (remoteS3.ParseDetailedReport "b0").customFields ∧
      t.recentBuild = "b0" ∧
      ∀ (fl : Flags) (W : Sys) (app : App), remoteS3.ParseBuildList app.AppID = .ok buildsFour →
        ∃ rows, (final (processApp fl remoteS3 W app State.init)).out = State.init.out ++ rows ∧
          ∀ x ∈ rows, x.kind = .data → x.cells[3]? = some "b0" :=
  build_selection remoteS3 buildsFour State.init 3 { BuildID := "b0" } (by decide)
    (by
      intro j hj x hx
      have h3 : j = 0 ∨ j = 1 ∨ j = 2 := by omega
      rcases h3 with rfl | rfl | rfl <;>
        · simp only [buildsFour] at hx
          simp at hx
          subst hx
          decide)
    (by simp [buildsFour]) (by decide)

theorem firstUsable_none_iff (R : Remote) (B : List Build) :
    firstUsable R B = none ↔
      ∀ j, j < min B.length 4 → ∀ x, B[B.length - 1 - j]? = some x →
        (R.ParseDetailedReport x.BuildID).err ≠ none := by
  unfold firstUsable
  rw [List.find?_eq_none]
  constructor
  · intro h j hj x hx
    have hmem : x ∈ probes B :=
      List.mem_iff_getElem?.mpr ⟨j, (probes_getElem B j x).mpr ⟨hj, hx⟩⟩
    simpa [usable] using h x hmem
  · intro h x hx
    obtain ⟨j, hj⟩ := List.mem_iff_getElem?.mp hx
    have hj2 := (probes_getElem B j x).mp hj
    simpa [usable] using h j hj2.1 x hj2.2

/-- C2 (no-data signal).  The selector always completes; it marks the application as
skipped exactly when the build list is empty or the fetch fails for every one of the
`min n 4` newest builds; and a skipped application leaves the output, the write count and
the header counter as they were: its step writes neither a header nor a data record. -/
theorem no_data_signal (R : Remote) (B : List Build) (s : State) :
    ∃ t, selectBuild R B { s with appSkip := false } = .ok t ∧
      (t.appSkip = true ↔
        (B.length = 0 ∨ ∀ j, j < min B.length 4 → ∀ x, B[B.length - 1 - j]? = some x →
          (R.ParseDetailedReport x.BuildID).err ≠ none)) ∧
      (t.appSkip = true →
        t.out = s.out ∧ t.nwrites = s.nwrites ∧
        t.appWithFlawsCounter = s.appWithFlawsCounter ∧
        ∀ (fl : Flags) (W : Sys) (app : App), printApp fl W app t = .ok t ∧
          (R.ParseBuildList app.AppID = .ok B → processApp fl R W app s = .ok t)) := by
  refine ⟨_, selectBuild_eq R B _, ?_, ?_⟩
  · rw [selectResult_skip_iff R B _ rfl, firstUsable_none_iff]
    constructor
    · intro h
      exact Or.inr h
    · rintro (h | h)
      · intro j hj
        omega
      · exact h
  · intro hskip
    have hfr := selectResult_frame R B { s with appSkip := false }
    refine ⟨hfr.1, hfr.2.1, hfr.2.2, ?_⟩
    intro fl W app
    refine ⟨printApp_skip fl W app _ hskip, ?_⟩
    intro hbl
    unfold processApp
    simp only [hbl, selectBuild_eq]
    exact printApp_skip fl W app _ hskip

/-- C3 (row per surviving flaw, in order).  In a run that completes (no list fetch or
header write fails, no index is out of range) and in which every write succeeds, the
data records of the output are the concatenation, in application-list order, of the
records of the filter-passing flaws of each application's selected build in flaw-list
order, one record per such flaw; so their number is the sum over the applications of the
number of filter-passing flaws. -/
theorem rows_per_surviving_flaw (fl : Flags) (R : Remote) (W : Sys) (apps : List App)
    (t : State) (hw : ∀ n, W.writeOk n = true) (happs : R.ParseAppList = .ok apps)
    (hrun : main fl R W = .ok t) :
    dataRows (output fl R W) = apps.flatMap (appRows fl R) ∧
    (∀ a ∈ apps, (appRows fl R a).length = (survivors fl R a).length) ∧
    (dataRows (output fl R W)).length = (apps.map (fun a => (survivors fl R a).length)).sum := by
  have hout : output fl R W = t.out := by simp [output, hrun, final]
  unfold main at hrun
  rw [happs] at hrun
  by_cases hc : W.createOk = true
  · simp only [hc, if_true] at hrun
    obtain ⟨h1, h2⟩ := appLoop_exact fl R W apps State.init t hw hrun
    have h3 : dataRows (output fl R W) = apps.flatMap (appRows fl R) := by
      rw [hout, h1]
      simp [State.init, dataRows]
    refine ⟨h3, h2, ?_⟩
    rw [h3, List.length_flatMap]
    congr 1
    apply List.map_congr_left
    intro a ha
    exact h2 a ha
  · simp [hc] at hrun

/-- An instance of C3: two applications, the first skipped, the second with two
surviving flaws out of three. -/
theorem rows_per_surviving_flaw_witness :
    dataRows (output flagsDefault remoteS5 sysOk)
      = [{ AppID := "10", AppName := "shop" }, { AppID := "20", AppName := "bank" }].flatMap
          (appRows flagsDefault remoteS5) ∧
    (∀ a ∈ [({ AppID := "10", AppName := "shop" } : App), { AppID := "20", AppName := "bank" }],
      (appRows flagsDefault remoteS5 a).length = (survivors flagsDefault remoteS5 a).length) ∧
    (dataRows (output flagsDefault remoteS5 sysOk)).length
      = ([({ AppID := "10", AppName := "shop" } : App), { AppID := "20", AppName := "bank" }].map
          (fun a => (survivors flagsDefault remoteS5 a).length)).sum :=
  rows_per_surviving_flaw flagsDefault remoteS5 sysOk _ (final (main flagsDefault remoteS5 sysOk))
    (fun _ => rfl) rfl rfl

/-- The output of any run: nothing, or the header of the first application with a
selected build followed by data records only, each written by some application. -/
theorem main_shape (fl : Flags) (R : Remote) (W : Sys) :
    output fl R W = [] ∨ ∃ apps pre a post b c rest, R.ParseAppList = .ok apps ∧
      apps = pre ++ a :: post ∧ (∀ x ∈ pre, selected R x = none) ∧ selected R a = some b ∧
      (R.ParseDetailedReport b.BuildID).customFields.head? = some c ∧
      output fl R W = { kind := .header, cells := headers fl c } :: rest ∧ allData rest ∧
      ∀ x ∈ rest, ∃ a2 ∈ apps, ∃ cnt n, x ∈ appOut fl R W a2 cnt n := by
  unfold output main
  cases happs : R.ParseAppList with
  | error e => left; rfl
  | ok apps =>
    by_cases hc : W.createOk = true
    · simp only [hc, if_true]
      obtain ⟨rows, hr, hcase⟩ := appLoop_zero fl R W apps State.init rfl
      have hr2 : (final (appLoop fl R W apps State.init)).out = rows := by
        rw [hr]
        simp [State.init]
      rcases hcase with h0 | ⟨pre, a, post, b, c, rest, h1, h2, h3, h4, h5, h6, h7⟩
      · left
        rw [hr2, h0]
      · right
        exact ⟨apps, pre, a, post, b, c, rest, rfl, h1, h2, h3, h4, by rw [hr2, h5], h6, h7⟩
    · left
      simp [hc, final, State.init]

/-- Every data record of a run is the record of a flaw of the selected build of one of
the applications, and that flaw passed the filter. -/
theorem output_data (fl : Flags) (R : Remote) (W : Sys) (x : OutRow)
    (hx : x ∈ output fl R W) (hd : x.kind = .data) :
    ∃ apps, R.ParseAppList = .ok apps ∧ ∃ a ∈ apps, ∃ b, selected R a = some b ∧
      ∃ f ∈ (R.ParseDetailedReport b.BuildID).flaws, skipFlaw fl f = false ∧
        specRow fl a b.BuildID (R.ParseDetailedReport b.BuildID).report
          (R.ParseDetailedReport b.BuildID).customFields f = some x.cells := by
  rcases main_shape fl R W with h0 | ⟨apps, pre, a, post, b, c, rest, h1, _, _, _, _, h5, _, h7⟩
  · rw [h0] at hx
    simp at hx
  · rw [h5] at hx
    rcases List.mem_cons.mp hx with hx | hx
    · rw [hx] at hd
      exact absurd hd (by simp)
    · obtain ⟨a2, ha2, cnt, n, hmem⟩ := h7 x hx
      exact ⟨apps, h1, a2, ha2, appOut_data fl R W a2 cnt n x hmem hd⟩

theorem appRows_eq_keptRows (fl : Flags) (R : Remote) (a : App) :
    appRows fl R a = keptRows fl R a := by
  unfold appRows survivors keptRows
  cases selected R a with
  | none => rfl
  | some b =>
    simp only []
    congr 2
    funext f
    by_cases h : skipFlaw fl f = true
    · have : specDrop fl f := (skipFlaw_iff fl f).mp h
      simp [h, this]
    · have hn : ¬ specDrop fl f := fun hd => h ((skipFlaw_iff fl f).mpr hd)
      have h2 : skipFlaw fl f = false := by simpa using h
      simp [h2, hn]

theorem isSome_of_filterMap_length {α β : Type} (g : α → Option β) (l : List α)
    (h : (l.filterMap g).length = l.length) : ∀ x ∈ l, (g x).isSome = true := by
  induction l with
  | nil => simp
  | cons y rest ih =>
    cases hgy : g y with
    | none =>
      simp only [List.filterMap_cons, hgy, List.length_cons] at h
      have := List.length_filterMap_le g rest
      omega
    | some z =>
      simp only [List.filterMap_cons, hgy, List.length_cons, add_left_inj] at h
      intro x hx
      rcases List.mem_cons.mp hx with rfl | hx
      · simp [hgy]
      · exact ih h x hx

/-- C4, as stated, fails: in a completed run with the disk full after three records and
`-nonpv` set, flaw `6` of the selected build meets none of the five rules, yet its write
fails (it is logged and skipped) and no data record is emitted for it. -/
theorem filter_correctness_cex :
    haltKind (main flagsNonPV remoteThree sysFullAfterThree) = none ∧
    selected remoteThree { AppID := "10", AppName := "shop" } = some { BuildID := "b1" } ∧
    flawOpenLate ∈ (remoteThree.ParseDetailedReport "b1").flaws ∧
    ¬ specDrop flagsNonPV flawOpenLate ∧
    dataRows (output flagsNonPV remoteThree sysFullAfterThree)
      = [specCells flagsNonPV { AppID := "10", AppName := "shop" }
          { Name := "Business Unit", Value := "Finance" } "b1" flawOpen "static" ""
          "2018-02-01",
         specCells flagsNonPV { AppID := "10", AppName := "shop" }
          { Name := "Business Unit", Value := "Finance" } "b1" flawNonPV "static" ""
          "2018-02-01"] ∧
    specCells flagsNonPV { AppID := "10", AppName := "shop" }
        { Name := "Business Unit", Value := "Finance" } "b1" flawOpenLate "static" ""
        "2018-02-01"
      ∉ dataRows (output flagsNonPV remoteThree sysFullAfterThree) := by
  decide

/-- C4 as amended.  For every setting of the flags: the `continue` condition of the flaw
loop is the disjunction of the five drop rules; for a flaw that has a record and whose
write succeeds, the loop body completes and appends a data record if and only if none of
the five rules holds (and leaves the output unchanged otherwise); in a run that completes
with every write succeeding, the data records are exactly the records of the flaws of the
selected builds that meet none of the five rules, in order, and each such flaw has its
record; and in every run no data record has remediation status `Fixed` or
`Cannot Reproduce`, none has `affects_policy_compliance` `false` when `nonpv` is unset,
and none has mitigation status `accepted` when `mitigated` is unset. -/
theorem filter_correctness (fl : Flags) :
    (∀ f : Flaw, skipFlaw fl f = true ↔
      ((f.RemediationStatus = "Fixed" ∨ f.RemediationStatus = "Cannot Reproduce") ∨
       (fl.inclNonPV = false ∧ f.AffectsPolicyCompliance = "false") ∨
       (fl.inclMitigated = false ∧ f.MitigationStatus = "accepted") ∨
       (fl.staticOnly = true ∧ f.Module = "dynamic_analysis") ∨
       (fl.dynamicOnly = true ∧ f.Module ≠ "dynamic_analysis"))) ∧
    (∀ (W : Sys) (app : App) (f : Flaw) (s : State),
      (specRow fl app s.recentBuild s.detailedReport s.appCustomFields f).isSome = true →
      W.writeOk s.nwrites = true →
      ∃ t, flawBody fl W app f s = .ok t ∧
        ((∃ row, t.out = s.out ++ [{ kind := .data, cells := row }]) ↔ ¬ specDrop fl f) ∧
        (specDrop fl f → t.out = s.out)) ∧
    (∀ (R : Remote) (W : Sys) (apps : List App) (t : State),
      (∀ n, W.writeOk n = true) → R.ParseAppList = .ok apps → main fl R W = .ok t →
      dataRows (output fl R W) = apps.flatMap (keptRows fl R) ∧
      ∀ a ∈ apps, ∀ b, selected R a = some b →
        ∀ f ∈ (R.ParseDetailedReport b.BuildID).flaws, ¬ specDrop fl f →
          (specRow fl a b.BuildID (R.ParseDetailedReport b.BuildID).report
            (R.ParseDetailedReport b.BuildID).customFields f).isSome = true) ∧
    (∀ (R : Remote) (W : Sys) (x : OutRow), x ∈ output fl R W → x.kind = .data →
      x.cells[10]? ≠ some "Fixed" ∧ x.cells[10]? ≠ some "Cannot Reproduce" ∧
      (fl.inclNonPV = false → x.cells[13]? ≠ some "false") ∧
      (fl.inclMitigated = false → x.cells[11]? ≠ some "accepted")) := by
  refine ⟨fun f => skipFlaw_iff fl f, ?_, ?_, ?_⟩
  · intro W app f s hsome hw
    by_cases hs : skipFlaw fl f = true
    · have hdrop : specDrop fl f := (skipFlaw_iff fl f).mp hs
      refine ⟨_, flawBody_skip fl W app f s hs, ?_, fun _ => rfl⟩
      constructor
      · rintro ⟨row, hrow⟩
        have := congrArg List.length hrow
        simp [resetScan] at this
      · intro hn
        exact absurd hdrop hn
    · have hs2 : skipFlaw fl f = false := by simpa using hs
      have hnd : ¬ specDrop fl f := fun hd => hs ((skipFlaw_iff fl f).mpr hd)
      cases hrow : specRow fl app s.recentBuild s.detailedReport s.appCustomFields f with
      | none => simp [hrow] at hsome
      | some row =>
        obtain ⟨t, ht, _, _, hout⟩ := flawBody_row fl W app f s row hs2 hrow
        rw [if_pos hw] at hout
        exact ⟨t, ht, ⟨fun _ => hnd, fun _ => ⟨row, hout⟩⟩, fun hd => absurd hd hnd⟩
  · intro R W apps t hw happs hrun
    have hout : output fl R W = t.out := by simp [output, hrun, final]
    unfold main at hrun
    rw [happs] at hrun
    by_cases hc : W.createOk = true
    · simp only [hc, if_true] at hrun
      obtain ⟨h1, h2⟩ := appLoop_exact fl R W apps State.init t hw hrun
      constructor
      · rw [hout, h1]
        simp only [State.init, dataRows, List.filter_nil, List.map_nil, List.nil_append]
        congr 1
        funext a
        exact appRows_eq_keptRows fl R a
      · intro a ha b hsel f hf hnd
        have hlen := h2 a ha
        unfold appRows at hlen
        simp only [hsel] at hlen
        have hall := isSome_of_filterMap_length _ _ hlen
        apply hall f
        unfold survivors
        simp only [hsel]
        apply List.mem_filter.mpr
        refine ⟨hf, ?_⟩
        have : ¬ skipFlaw fl f = true := fun h => hnd ((skipFlaw_iff fl f).mp h)
        simpa using this
    · simp [hc] at hrun
  · intro R W x hx hd
    obtain ⟨apps, _, a, _, b, _, f, _, hskip, hrow⟩ := output_data fl R W x hx hd
    obtain ⟨c, t, u, d, _, _, hcells⟩ := specRow_cells _ _ _ _ _ _ _ hrow
    have hnd : ¬ specDrop fl f := by
      intro hdrop
      have := (skipFlaw_iff fl f).mpr hdrop
      rw [hskip] at this
      exact absurd this (by simp)
    unfold specDrop at hnd
    simp only [not_or, not_and] at hnd
    obtain ⟨⟨h1, h2⟩, h3, h4, _, _⟩ := hnd
    rw [hcells]
    simp only [specCells]
    refine ⟨?_, ?_, ?_, ?_⟩
    · simpa using h1
    · simpa using h2
    · intro hf
      simpa using h3 hf
    · intro hf
      simpa using h4 hf

theorem headerRows_allData (rows : List OutRow) (h : allData rows) : headerRows rows = [] := by
  unfold headerRows
  rw [List.filter_eq_nil_iff.mpr]
  · rfl
  · intro x hx
    simp [h x hx]

theorem dataRows_ne_nil (rows : List OutRow) (x : OutRow) (hx : x ∈ rows)
    (hd : x.kind = .data) : dataRows rows ≠ [] := by
  unfold dataRows
  intro h
  have hmem : x ∈ rows.filter (fun r => r.kind = RowKind.data) :=
    List.mem_filter.mpr ⟨hx, by simp [hd]⟩
  have := List.map_eq_nil_iff.mp h
  rw [this] at hmem
  simp at hmem

theorem dataRows_nil_allData (rows : List OutRow) (h : allData rows) (hn : dataRows rows = []) :
    rows = [] := by
  cases rows with
  | nil => rfl
  | cons x rest =>
    exact absurd hn (dataRows_ne_nil _ x (List.mem_cons_self _ _) (h x (List.mem_cons_self _ _)))

/-- C5 (header at most once and first).  In every run the output holds at most one
header record; a header record can only be record 0; and every data record stands at a
position after 0 with a header record at position 0, so no data record is written before
the header. -/
theorem header_once_first (fl : Flags) (R : Remote) (W : Sys) :
    (headerRows (output fl R W)).length ≤ 1 ∧
    (∀ i x, (output fl R W)[i]? = some x → x.kind = .header → i = 0) ∧
    (∀ i x, (output fl R W)[i]? = some x → x.kind = .data →
      0 < i ∧ ∃ h, (output fl R W)[0]? = some { kind := .header, cells := h }) := by
  rcases main_shape fl R W with h0 | ⟨apps, pre, a, post, b, c, rest, _, _, _, _, _, h5, h6, _⟩
  · rw [h0]
    simp [headerRows]
  · rw [h5]
    refine ⟨?_, ?_, ?_⟩
    · have := headerRows_allData rest h6
      simp only [headerRows, List.filter] at this ⊢
      simp [this]
    · intro i x hi hk
      cases i with
      | zero => rfl
      | succ i =>
        simp only [List.getElem?_cons_succ] at hi
        have hmem : x ∈ rest := List.mem_iff_getElem?.mpr ⟨i, hi⟩
        rw [h6 x hmem] at hk
        exact absurd hk (by simp)
    · intro i x hi hk
      cases i with
      | zero =>
        simp only [List.getElem?_cons_zero, Option.some.injEq] at hi
        rw [← hi] at hk
        exact absurd hk (by simp)
      | succ i => exact ⟨Nat.succ_pos i, headers fl c, by simp⟩

/-- C6 at its failing input: one application whose usable build lists no flaw.  The run
writes the header for it although no data record follows, so the output is the header
record alone and not empty; the comment of line 120 puts the header at the first
application with flaws. -/
theorem header_written_without_flaws :
    dataRows (output flagsDefault remoteNoFlaws sysOk) = [] ∧
    output flagsDefault remoteNoFlaws sysOk
      = [{ kind := .header,
           cells := headers flagsDefault { Name := "Business Unit", Value := "Finance" } }] ∧
    output flagsDefault remoteNoFlaws sysOk ≠ [] := by
  decide

/-- A completed loop that meets an application with a selected build, starting with no
application printed, has written something. -/
theorem appLoop_ok_nonempty (fl : Flags) (R : Remote) (W : Sys) (apps : List App)
    (s t : State) (h : appLoop fl R W apps s = .ok t) (hs : s.appWithFlawsCounter = 0)
    (a : App) (ha : a ∈ apps) (b : Build) (hsel : selected R a = some b) :
    ∃ extra, t.out = s.out ++ extra ∧ extra ≠ [] := by
  induction apps generalizing s with
  | nil => simp at ha
  | cons a0 rest ih =>
    unfold appLoop at h
    cases hp : processApp fl R W a0 s with
    | error e => simp [hp] at h
    | ok u =>
      simp only [hp] at h
      have hout := processApp_out fl R W a0 s
      rw [hp] at hout
      simp only [final] at hout
      rcases processApp_counter fl R W a0 s u hp with ⟨hnone, hc⟩ | ⟨b0, hsome, hc⟩
      · rw [appOut_none fl R W a0 _ _ hnone, List.append_nil] at hout
        have ha2 : a ∈ rest := by
          rcases List.mem_cons.mp ha with rfl | ha
          · rw [hnone] at hsel
            exact absurd hsel (by simp)
          · exact ha
        obtain ⟨extra, he, hne⟩ := ih u h (by omega) ha2
        exact ⟨extra, by rw [he, hout], hne⟩
      · obtain ⟨rows, hr, _, _⟩ := appLoop_pos fl R W rest u (by omega)
        rw [h] at hr
        simp only [final] at hr
        obtain ⟨bl, hbl, hm⟩ := processApp_ok fl R W a0 s u hp
        have hfu : firstUsable R bl = some b0 := by simpa [selected, hbl] using hsome
        rw [hfu] at hm
        obtain ⟨c, hc1, hw⟩ := hm.2.1 hs
        refine ⟨appOut fl R W a0 s.appWithFlawsCounter s.nwrites ++ rows, ?_, ?_⟩
        · rw [hr, hout, List.append_assoc]
        · simp [appOut, hsome, hs, hc1, hw]

/-- What the code does about the header, in general.  In every run, an output with at
least one data record has exactly one header record, as record 0; an output with no data
record is empty or consists of the header record alone; and in a run that completes the
output is empty exactly when no application has a selected build, whether or not any
flaw survives the filter. -/
theorem header_with_first_usable_app (fl : Flags) (R : Remote) (W : Sys) :
    (dataRows (output fl R W) ≠ [] →
      (headerRows (output fl R W)).length = 1 ∧
      ∃ h, (output fl R W)[0]? = some { kind := .header, cells := h }) ∧
    (dataRows (output fl R W) = [] →
      output fl R W = [] ∨ ∃ h, output fl R W = [{ kind := .header, cells := h }]) ∧
    (∀ apps t, R.ParseAppList = .ok apps → main fl R W = .ok t →
      (output fl R W = [] ↔ ∀ a ∈ apps, selected R a = none)) := by
  refine ⟨?_, ?_, ?_⟩
  · intro hne
    rcases main_shape fl R W with h0 | ⟨apps, pre, a, post, b, c, rest, _, _, _, _, _, h5, h6, _⟩
    · rw [h0] at hne
      exact absurd rfl hne
    · rw [h5]
      refine ⟨?_, headers fl c, by simp⟩
      have := headerRows_allData rest h6
      simp only [headerRows, List.filter] at this ⊢
      simp [this]
  · intro hnil
    rcases main_shape fl R W with h0 | ⟨apps, pre, a, post, b, c, rest, _, _, _, _, _, h5, h6, _⟩
    · left
      exact h0
    · right
      rw [h5, dataRows_header] at hnil
      rw [h5, dataRows_nil_allData rest h6 hnil]
      exact ⟨_, rfl⟩
  · intro apps t happs hrun
    constructor
    · intro hempty a ha
      cases hsel : selected R a with
      | none => rfl
      | some b =>
        exfalso
        have hout : output fl R W = t.out := by simp [output, hrun, final]
        unfold main at hrun
        rw [happs] at hrun
        by_cases hc : W.createOk = true
        · simp only [hc, if_true] at hrun
          obtain ⟨extra, he, hne⟩ :=
            appLoop_ok_nonempty fl R W apps State.init t hrun rfl a ha b hsel
          rw [hout, he] at hempty
          simp [State.init] at hempty
          exact hne hempty
        · simp [hc] at hrun
    · intro hall
      rcases main_shape fl R W with h0 | ⟨apps2, pre, a, post, b, c, rest, h1, h2, _, h4, _, _, _, _⟩
      · exact h0
      · exfalso
        rw [happs] at h1
        have hap : apps = apps2 := by
          injection h1
        subst hap
        have ha : a ∈ apps := by
          rw [h2]
          simp
        rw [hall a ha] at h4
        exact absurd h4 (by simp)

/-- C7 at its failing input: application `10` has a usable build without flaws,
application `20` one open flaw.  The only data record comes from application `20`, whose
first custom field is named `Business Unit`, but the code wrote the header for
application `10`, so its third column is `Region`. -/
theorem header_label_of_flawless_app :
    output flagsDefault remoteTwoLabels sysOk
      = [{ kind := .header, cells := headers flagsDefault { Name := "Region", Value := "EU" } },
         { kind := .data,
           cells := specCells flagsDefault { AppID := "20", AppName := "bank" }
             { Name := "Business Unit", Value := "Finance" } "b2" flawOpen "static" ""
             "2018-02-01" }] ∧
    (headers flagsDefault { Name := "Region", Value := "EU" })[2]? = some "Region" ∧
    selected remoteTwoLabels { AppID := "20", AppName := "bank" } = some { BuildID := "b2" } ∧
    (remoteTwoLabels.ParseDetailedReport "b2").customFields.head?
      = some { Name := "Business Unit", Value := "Finance" } ∧
    "Region" ≠ "Business Unit" := by
  decide

/-- Where the code takes the custom-field column from, in general.  In every run, the
third column of a header record is the name of the first custom field of the first
application of the list with a selected build (every application before it is skipped),
whether or not that application produces a data record; and every data record carries the name and id of an application of the list in
its first two cells and, in its third cell, the value of the first custom field of that
application's selected build. -/
theorem header_label_first_usable_app (fl : Flags) (R : Remote) (W : Sys) :
    (∀ h, { kind := .header, cells := h } ∈ output fl R W →
      ∃ apps pre a post b c, R.ParseAppList = .ok apps ∧ apps = pre ++ a :: post ∧
        (∀ x ∈ pre, selected R x = none) ∧ selected R a = some b ∧
        (R.ParseDetailedReport b.BuildID).customFields.head? = some c ∧
        h[2]? = some c.Name) ∧
    (∀ d, { kind := .data, cells := d } ∈ output fl R W →
      ∃ apps a b c, R.ParseAppList = .ok apps ∧ a ∈ apps ∧ selected R a = some b ∧
        (R.ParseDetailedReport b.BuildID).customFields.head? = some c ∧
        d[0]? = some a.AppName ∧ d[1]? = some a.AppID ∧ d[2]? = some c.Value) := by
  constructor
  · intro h hmem
    rcases main_shape fl R W with h0 | ⟨apps, pre, a, post, b, c, rest, h1, h2, h3, h4, h5, h6, h7, _⟩
    · rw [h0] at hmem
      simp at hmem
    · rw [h6] at hmem
      rcases List.mem_cons.mp hmem with hx | hx
      · refine ⟨apps, pre, a, post, b, c, h1, h2, h3, h4, h5, ?_⟩
        have hh : h = headers fl c := by
          injection hx
        rw [hh]
        unfold headers
        split <;> simp
      · have := h7 _ hx
        simp at this
  · intro d hmem
    obtain ⟨apps, happs, a, ha, b, hsel, f, _, _, hrow⟩ := output_data fl R W _ hmem rfl
    obtain ⟨c, t, u, e, hc, _, hcells⟩ := specRow_cells _ _ _ _ _ _ _ hrow
    refine ⟨apps, a, b, c, happs, ha, hsel, hc, ?_, ?_, ?_⟩ <;>
      · simp only [] at hcells
        rw [hcells]
        simp [specCells]

/-- C8 at its failing input: with `-static` set a manual-analysis flaw is still exported,
with analysis type `manual`. -/
theorem static_flag_exports_manual :
    dataRows (output flagsStatic remoteManual sysOk)
      = [specCells flagsStatic { AppID := "10", AppName := "shop" }
          { Name := "Business Unit", Value := "Finance" } "b1" flawManual "manual" ""
          "2018-02-03"] ∧
    (specCells flagsStatic { AppID := "10", AppName := "shop" }
      { Name := "Business Unit", Value := "Finance" } "b1" flawManual "manual" ""
      "2018-02-03")[6]? = some "manual" ∧
    (specCells flagsStatic { AppID := "10", AppName := "shop" }
      { Name := "Business Unit", Value := "Finance" } "b1" flawManual "manual" ""
      "2018-02-03")[18]? = some "manual_analysis" := by
  decide

/-- C9 at its failing input: with `-nonpv` set the policy-violating flaw is exported
along with the one that does not affect policy compliance, so a data record has
`affects_policy_compliance` equal to `true`; the help text of the flag (line 28) says
only non-policy-violating flaws are included. -/
theorem nonpv_exports_policy_violating :
    dataRows (output flagsNonPV remoteMixed sysOk)
      = [specCells flagsNonPV { AppID := "10", AppName := "shop" }
          { Name := "Business Unit", Value := "Finance" } "b1" flawOpen "static" ""
          "2018-02-01",
         specCells flagsNonPV { AppID := "10", AppName := "shop" }
          { Name := "Business Unit", Value := "Finance" } "b1" flawNonPV "static" ""
          "2018-02-01"] ∧
    (specCells flagsNonPV { AppID := "10", AppName := "shop" }
      { Name := "Business Unit", Value := "Finance" } "b1" flawOpen "static" ""
      "2018-02-01")[13]? = some "true" ∧
    "true" ≠ "false" := by
  decide

/-- What the filter does with `-nonpv` set, in general.  The policy-compliance value
plays no part in the filter: a flaw is dropped exactly when one of the rules 1, 3, 4, 5 holds, and changing
its `affects_policy_compliance` value never changes whether it is dropped; flaws that do
not violate policy are included along with those that do. -/
theorem nonpv_includes_all (fl : Flags) (f : Flaw) (h : fl.inclNonPV = true) :
    (skipFlaw fl f = true ↔
      ((f.RemediationStatus = "Fixed" ∨ f.RemediationStatus = "Cannot Reproduce") ∨
       (fl.inclMitigated = false ∧ f.MitigationStatus = "accepted") ∨
       (fl.staticOnly = true ∧ f.Module = "dynamic_analysis") ∨
       (fl.dynamicOnly = true ∧ f.Module ≠ "dynamic_analysis"))) ∧
    (∀ v : String, skipFlaw fl { f with AffectsPolicyCompliance := v } = skipFlaw fl f) := by
  constructor
  · rw [skipFlaw_iff]
    unfold specDrop
    simp [h]
  · intro v
    simp [skipFlaw, h]

/-- An instance: with `-nonpv` set the open flaw is kept whatever its policy-compliance
value. -/
theorem nonpv_includes_all_witness :
    (skipFlaw flagsNonPV flawOpen = true ↔
      ((flawOpen.RemediationStatus = "Fixed" ∨ flawOpen.RemediationStatus = "Cannot Reproduce") ∨
       (flagsNonPV.inclMitigated = false ∧ flawOpen.MitigationStatus = "accepted") ∨
       (flagsNonPV.staticOnly = true ∧ flawOpen.Module = "dynamic_analysis") ∨
       (flagsNonPV.dynamicOnly = true ∧ flawOpen.Module ≠ "dynamic_analysis"))) ∧
    (∀ v : String,
      skipFlaw flagsNonPV { flawOpen with AffectsPolicyCompliance := v }
        = skipFlaw flagsNonPV flawOpen) :=
  nonpv_includes_all flagsNonPV flawOpen rfl

/-- C10 (row projection).  For a surviving flaw `f` of application `a`, with a first
custom field `c`, a first dynamic module when `f` is dynamic, and a successful write, the
loop body appends exactly the record
`[AppName, AppID, c.Value, build id, AppID-Issueid, Issueid, scanType, ..., scanDate, ...,
scanURL, FlawURL]` (followed by the description when `-desc` is set), where the scan
triple is `dynamic`, the first module's target URL and the dynamic date for module
`dynamic_analysis`; `manual`, the empty URL and the manual date for `manual_analysis`;
`static`, the empty URL and the static date otherwise.  The record does not depend on
the values the per-flaw variables held before, and over a whole flaw list the records
are those of the surviving flaws, each computed from its own flaw. -/
theorem row_projection (fl : Flags) (W : Sys) (a : App) (f : Flaw) (s : State)
    (c : CustomField) (cs : List CustomField)
    (hc : s.appCustomFields = c :: cs) (hkeep : skipFlaw fl f = false)
    (hmod : f.Module = "dynamic_analysis" →
      s.detailedReport.DynamicAnalysis.Modules.Module ≠ [])
    (hw : W.writeOk s.nwrites = true) :
    (∃ t scanType scanURL scanDate, flawBody fl W a f s = .ok t ∧
      t.out = s.out ++ [{ kind := .data, cells :=
        [a.AppName, a.AppID, c.Value, s.recentBuild, a.AppID ++ "-" ++ f.Issueid, f.Issueid,
         scanType, f.CategoryName, f.CweName, f.Cweid, f.RemediationStatus,
         f.MitigationStatus, f.PolicyName, f.AffectsPolicyCompliance, f.DateFirstOccurrence,
         scanDate, f.Severity, f.ExploitLevel, f.Module, f.Sourcefile, f.Line, scanURL,
         f.FlawURL] ++ (if fl.inclDesc = true then [f.Description] else []) }] ∧
      (f.Module = "dynamic_analysis" →
        scanType = "dynamic" ∧
        s.detailedReport.DynamicAnalysis.Modules.Module.head?.map (fun m => m.TargetURL)
          = some scanURL ∧
        scanDate = s.detailedReport.DynamicAnalysis.SubmittedDate) ∧
      (f.Module = "manual_analysis" →
        scanType = "manual" ∧ scanURL = "" ∧
        scanDate = s.detailedReport.ManualAnalysis.SubmittedDate) ∧
      (f.Module ≠ "dynamic_analysis" → f.Module ≠ "manual_analysis" →
        scanType = "static" ∧ scanURL = "" ∧
        scanDate = s.detailedReport.StaticAnalysis.SubmittedDate)) ∧
    (∀ x y z : String,
      (final (flawBody fl W a f
        { s with scanType := x, scanTargetURL := y, scanSubmittedDate := z })).out
        = (final (flawBody fl W a f s)).out) ∧
    (∀ (fs : List Flaw) (t : State), (∀ n, W.writeOk n = true) →
      flawLoop fl W a fs s = .ok t →
      t.out = s.out ++ ((fs.filter (fun g => !skipFlaw fl g)).filterMap
        (specRow fl a s.recentBuild s.detailedReport s.appCustomFields)).map
          (fun r => { kind := RowKind.data, cells := r })) := by
  have hhead : s.appCustomFields.head? = some c := by rw [hc]; rfl
  refine ⟨?_, ?_, ?_⟩
  · by_cases hd : f.Module = "dynamic_analysis"
    · cases hm : s.detailedReport.DynamicAnalysis.Modules.Module with
      | nil => exact absurd hm (hmod hd)
      | cons m ms =>
        have hrow : specRow fl a s.recentBuild s.detailedReport s.appCustomFields f
            = some (specCells fl a c s.recentBuild f "dynamic" m.TargetURL
                s.detailedReport.DynamicAnalysis.SubmittedDate) := by
          simp [specRow, specScan, hd, hm, hhead]
        obtain ⟨t, ht, _, _, hout⟩ := flawBody_row fl W a f s _ hkeep hrow
        rw [if_pos hw] at hout
        refine ⟨t, "dynamic", m.TargetURL, _, ht, hout, ?_, ?_, ?_⟩
        · intro _
          exact ⟨rfl, by simp, rfl⟩
        · intro h2
          rw [hd] at h2
          exact absurd h2 (by decide)
        · intro h2
          exact absurd hd h2
    · by_cases hm : f.Module = "manual_analysis"
      · have hrow : specRow fl a s.recentBuild s.detailedReport s.appCustomFields f
            = some (specCells fl a c s.recentBuild f "manual" ""
                s.detailedReport.ManualAnalysis.SubmittedDate) := by
          simp [specRow, specScan, hm, hhead]
        obtain ⟨t, ht, _, _, hout⟩ := flawBody_row fl W a f s _ hkeep hrow
        rw [if_pos hw] at hout
        refine ⟨t, "manual", "", _, ht, hout, ?_, ?_, ?_⟩
        · intro h2
          exact absurd h2 hd
        · intro _
          exact ⟨rfl, rfl, rfl⟩
        · intro _ h2
          exact absurd hm h2
      · have hrow : specRow fl a s.recentBuild s.detailedReport s.appCustomFields f
            = some (specCells fl a c s.recentBuild f "static" ""
                s.detailedReport.StaticAnalysis.SubmittedDate) := by
          simp [specRow, specScan, hd, hm, hhead]
        obtain ⟨t, ht, _, _, hout⟩ := flawBody_row fl W a f s _ hkeep hrow
        rw [if_pos hw] at hout
        refine ⟨t, "static", "", _, ht, hout, ?_, ?_, ?_⟩
        · intro h2
          exact absurd h2 hd
        · intro h2
          exact absurd h2 hm
        · intro _ _
          exact ⟨rfl, rfl, rfl⟩
  · intro x y z
    rfl
  · intro fs t hall hrun
    have hout := flawLoop_out fl W a fs s
    rw [hrun] at hout
    simp only [final] at hout
    obtain ⟨_, hsome⟩ := flawLoop_ok fl W a fs s t hrun
    rw [hout, emitted_all fl W a _ _ _ fs _ hall hsome]

/-- An instance of C10: a static flaw handled right after a dynamic one gets the static
date and an empty target URL, not the values left by the dynamic flaw. -/
theorem row_projection_witness :
    (final (flawBody flagsDefault sysOk { AppID := "20", AppName := "bank" } flawOpen
      stateAfterDynamic)).out
      = [{ kind := .data, cells :=
          ["bank", "20", "Finance", "b7", "20-1", "1", "static", "SQL Injection", "SQLi", "89",
           "Open", "none", "Policy", "true", "2018-01-01", "2018-02-01", "4", "1",
           "static_commands", "a.c", "7", "", "u/1"] }] ∧
    (∃ t scanType scanURL scanDate,
      flawBody flagsDefault sysOk { AppID := "20", AppName := "bank" } flawOpen
        stateAfterDynamic = .ok t ∧
      t.out = stateAfterDynamic.out ++ [{ kind := .data, cells :=
        ["bank", "20", "Finance", stateAfterDynamic.recentBuild, "20" ++ "-" ++ flawOpen.Issueid,
         flawOpen.Issueid, scanType, flawOpen.CategoryName, flawOpen.CweName, flawOpen.Cweid,
         flawOpen.RemediationStatus, flawOpen.MitigationStatus, flawOpen.PolicyName,
         flawOpen.AffectsPolicyCompliance, flawOpen.DateFirstOccurrence, scanDate,
         flawOpen.Severity, flawOpen.ExploitLevel, flawOpen.Module, flawOpen.Sourcefile,
         flawOpen.Line, scanURL, flawOpen.FlawURL]
          ++ (if flagsDefault.inclDesc = true then [flawOpen.Description] else []) }] ∧
      (flawOpen.Module ≠ "dynamic_analysis" → flawOpen.Module ≠ "manual_analysis" →
        scanType = "static" ∧ scanURL = "" ∧
        scanDate = stateAfterDynamic.detailedReport.StaticAnalysis.SubmittedDate)) := by
  refine ⟨by decide, ?_⟩
  obtain ⟨⟨t, x, y, z, h1, h2, _, _, h5⟩, _, _⟩ :=
    row_projection flagsDefault sysOk { AppID := "20", AppName := "bank" } flawOpen
      stateAfterDynamic { Name := "Business Unit", Value := "Finance" } [] rfl (by decide)
      (by decide) rfl
  exact ⟨t, x, y, z, h1, h2, h5⟩

/-! ## Schema, flags and exits (C11, C13, C14, C16) -/

theorem dataRows_eq_nil (rows : List OutRow) (h : ∀ x ∈ rows, x.kind ≠ RowKind.data) :
    dataRows rows = [] := by
  unfold dataRows
  rw [List.filter_eq_nil_iff.mpr]
  · rfl
  · intro x hx
    simpa using h x hx

theorem specCells_length (fl : Flags) (a : App) (c : CustomField) (b : String) (f : Flaw)
    (t u d : String) :
    (specCells fl a c b f t u d).length = if fl.inclDesc = true then 24 else 23 := by
  unfold specCells
  split <;> simp

/-- C11 (schema).  In every run, a header record is exactly the list `app_name, app_id,
<name of the first custom field>, build_id, ..., scan_target_url, flaw_url`, followed by
`description` exactly when `-desc` is set; and every record of the run, header or data,
has 23 fields without `-desc` and 24 with it. -/
theorem schema (fl : Flags) (R : Remote) (W : Sys) :
    (∀ x ∈ output fl R W, x.kind = .header →
      ∃ a b c, selected R a = some b ∧
        (R.ParseDetailedReport b.BuildID).customFields.head? = some c ∧
        x.cells = ["app_name", "app_id", c.Name, "build_id", "unique_id", "issueid",
          "analysis_type", "category", "cwe_name", "cwe_id", "remediation_status",
          "mitigation_status", "policy_name", "affects_policy_compliance",
          "date_first_occurrence", "recent_scan_date", "severity", "exploit_level", "module",
          "source_file", "line", "scan_target_url", "flaw_url"]
          ++ (if fl.inclDesc = true then ["description"] else [])) ∧
    (∀ x ∈ output fl R W, x.cells.length = if fl.inclDesc = true then 24 else 23) := by
  constructor
  · intro x hx hk
    rcases main_shape fl R W with h0 | ⟨apps, pre, a, post, b, c, rest, _, _, _, h4, h5, h6, h7, _⟩
    · rw [h0] at hx
      simp at hx
    · rw [h6] at hx
      rcases List.mem_cons.mp hx with hx | hx
      · refine ⟨a, b, c, h4, h5, ?_⟩
        rw [hx]
        simp only [headers]
        split <;> simp
      · rw [h7 x hx] at hk
        exact absurd hk (by simp)
  · intro x hx
    cases hk : x.kind with
    | header =>
      rcases main_shape fl R W with h0 | ⟨apps, pre, a, post, b, c, rest, _, _, _, _, _, h6, h7, _⟩
      · rw [h0] at hx
        simp at hx
      · rw [h6] at hx
        rcases List.mem_cons.mp hx with hx | hx
        · rw [hx]
          simp only [headers]
          split <;> simp
        · rw [h7 x hx] at hk
          exact absurd hk (by simp)
    | data =>
      obtain ⟨_, _, a, _, b, _, f, _, _, hrow⟩ := output_data fl R W x hx hk
      obtain ⟨c, t, u, d, _, _, hcells⟩ := specRow_cells _ _ _ _ _ _ _ hrow
      rw [hcells]
      exact specCells_length fl a c b.BuildID f t u d

/-- C13 at its failing inputs.  An application whose usable build returns no custom field
stops the run with an index-out-of-range panic: when it is the first application with a
usable build, at the header (line 122), before anything is written; otherwise at its
first surviving flaw (line 165), and the applications after it are never processed. -/
theorem missing_custom_fields_panic :
    haltKind (main flagsDefault remoteNoFields sysOk) = some .panic ∧
    output flagsDefault remoteNoFields sysOk = [] ∧
    haltKind (main flagsDefault remoteNoFieldsSecond sysOk) = some .panic ∧
    dataRows (output flagsDefault remoteNoFieldsSecond sysOk)
      = [specCells flagsDefault { AppID := "10", AppName := "shop" }
          { Name := "Business Unit", Value := "Finance" } "b1" flawOpen "static" ""
          "2018-02-01"] ∧
    appRows flagsDefault remoteNoFieldsSecond { AppID := "30", AppName := "mail" }
      = [specCells flagsDefault { AppID := "30", AppName := "mail" }
          { Name := "Business Unit", Value := "Finance" } "b3" flawOpen "static" ""
          "2018-02-01"] := by
  decide

/-- C14 at its failing input.  The run ends by `log.Fatal` at the failed build-list fetch
of the second application, after a header and a data record were handed to the encoder;
the deferred flush and close do not run. -/
theorem fatal_exit_skips_release :
    haltKind (main flagsDefault remoteListFails sysOk) = some .fatal ∧
    output flagsDefault remoteListFails sysOk
      = [{ kind := .header,
           cells := headers flagsDefault { Name := "Business Unit", Value := "Finance" } },
         { kind := .data,
           cells := specCells flagsDefault { AppID := "10", AppName := "shop" }
             { Name := "Business Unit", Value := "Finance" } "b1" flawOpen "static" ""
             "2018-02-01" }] ∧
    deferredRun (main flagsDefault remoteListFails sysOk) = false := by
  decide

/-- C16 (both scan-type flags).  With `-static` and `-dynamic` both set every flaw meets
rule 4 or rule 5, so the filter drops every flaw and no run writes a data record. -/
theorem both_scan_flags (fl : Flags) (R : Remote) (W : Sys)
    (hs : fl.staticOnly = true) (hd : fl.dynamicOnly = true) :
    (∀ f : Flaw, skipFlaw fl f = true) ∧ dataRows (output fl R W) = [] := by
  have hall : ∀ f : Flaw, skipFlaw fl f = true := by
    intro f
    rw [skipFlaw_iff]
    unfold specDrop
    by_cases hm : f.Module = "dynamic_analysis"
    · exact Or.inr (Or.inr (Or.inr (Or.inl ⟨hs, hm⟩)))
    · exact Or.inr (Or.inr (Or.inr (Or.inr ⟨hd, hm⟩)))
  refine ⟨hall, ?_⟩
  apply dataRows_eq_nil
  intro x hx hk
  obtain ⟨_, _, _, _, _, _, f, _, hskip, _⟩ := output_data fl R W x hx hk
  rw [hall f] at hskip
  exact absurd hskip (by simp)

/-- An instance of C16: with both flags set the three flaws of scenario S5 are all
dropped. -/
theorem both_scan_flags_witness :
    (∀ f : Flaw, skipFlaw flagsBoth f = true) ∧
    dataRows (output flagsBoth remoteS5 sysOk) = [] :=
  both_scan_flags flagsBoth remoteS5 sysOk rfl rfl

/-! ## Index safety (C17) -/

theorem index_isSome {α : Type} (xs : List α) (i : Int) (h0 : 0 ≤ i)
    (h1 : i < (xs.length : Int)) : (index xs i).isSome = true := by
  unfold index
  rw [if_pos ⟨h0, h1⟩]
  have : i.toNat < xs.length := by omega
  simp [List.getElem?_eq_getElem this]

theorem specRow_isSome (fl : Flags) (a : App) (b : String) (r : DetReport)
    (cs : List CustomField) (f : Flaw) (hcs : cs ≠ [])
    (hmod : f.Module = "dynamic_analysis" → r.DynamicAnalysis.Modules.Module ≠ []) :
    (specRow fl a b r cs f).isSome = true := by
  unfold specRow specScan
  cases cs with
  | nil => exact absurd rfl hcs
  | cons c rest =>
    by_cases hd : f.Module = "dynamic_analysis"
    · cases hm : r.DynamicAnalysis.Modules.Module with
      | nil => exact absurd hm (hmod hd)
      | cons m ms => simp [hd, hm]
    · by_cases hm : f.Module = "manual_analysis"
      · simp [hm]
      · simp [hd, hm]

theorem flawLoop_completes (fl : Flags) (W : Sys) (app : App) (fs : List Flaw) (s : State)
    (h : ∀ f ∈ fs, skipFlaw fl f = false →
      (specRow fl app s.recentBuild s.detailedReport s.appCustomFields f).isSome = true) :
    ∃ t, flawLoop fl W app fs s = .ok t := by
  induction fs generalizing s with
  | nil => exact ⟨s, rfl⟩
  | cons f rest ih =>
    unfold flawLoop
    by_cases hs : skipFlaw fl f = true
    · rw [flawBody_skip fl W app f s hs]
      exact ih (resetScan s) (fun g hg => h g (List.mem_cons_of_mem _ hg))
    · have hs2 : skipFlaw fl f = false := by simpa using hs
      have hsome := h f (List.mem_cons_self _ _) hs2
      cases hrow : specRow fl app s.recentBuild s.detailedReport s.appCustomFields f with
      | none => simp [hrow] at hsome
      | some row =>
        obtain ⟨u, hu, hk, _, _⟩ := flawBody_row fl W app f s row hs2 hrow
        simp only [hu]
        obtain ⟨k1, k2, k3, _, _, _⟩ := hk
        apply ih u
        intro g hg hgs
        rw [k1, k2, k3]
        exact h g (List.mem_cons_of_mem _ hg) hgs

/-- Under the two preconditions on the selected build of an application, its step can
only stop by `log.Fatal`. -/
theorem processApp_no_panic (fl : Flags) (R : Remote) (W : Sys) (app : App) (s : State)
    (hcf : ∀ b, selected R app = some b → (R.ParseDetailedReport b.BuildID).customFields ≠ [])
    (hmod : ∀ b, selected R app = some b → ∀ f ∈ (R.ParseDetailedReport b.BuildID).flaws,
      skipFlaw fl f = false → f.Module = "dynamic_analysis" →
      (R.ParseDetailedReport b.BuildID).report.DynamicAnalysis.Modules.Module ≠ [])
    (e : Stop) (h : processApp fl R W app s = .error e) : e.kind = .fatal := by
  unfold processApp at h
  cases hb : R.ParseBuildList app.AppID with
  | error err =>
    simp only [hb, Except.error.injEq] at h
    rw [← h]
  | ok bl =>
    simp only [hb, selectBuild_eq] at h
    cases hf : firstUsable R bl with
    | none =>
      have hskip := selectResult_none R bl { s with appSkip := false } hf
      rw [printApp_skip fl W app _ hskip] at h
      simp at h
    | some b =>
      have hsel : selected R app = some b := by simp [selected, hb, hf]
      have hne := hcf b hsel
      rw [selectResult_some R bl b _ hf] at h
      unfold printApp writeHeader at h
      simp only [assignReport, if_true, index_zero] at h
      have key : ∀ (fs : List Flaw) (u : State) (e2 : Stop),
          flawLoop fl W app fs u = .error e2 →
          (∀ f ∈ fs, skipFlaw fl f = false →
            (specRow fl app u.recentBuild u.detailedReport u.appCustomFields f).isSome
              = true) → False := by
        intro fs u e2 he hall
        obtain ⟨t, ht⟩ := flawLoop_completes fl W app fs u hall
        rw [ht] at he
        simp at he
      cases hcs : (R.ParseDetailedReport b.BuildID).customFields.head? with
      | none => exact absurd (List.head?_eq_none_iff.mp hcs) hne
      | some c =>
        by_cases hc : s.appWithFlawsCounter = 0
        · by_cases hw : W.writeOk s.nwrites = true
          · simp only [hc, zero_add, if_true, hcs, write, hw] at h
            exact (key _ _ _ h (fun f hfm hfs =>
              specRow_isSome _ _ _ _ _ _ hne (hmod b hsel f hfm hfs))).elim
          · simp only [hc, zero_add, if_true, hcs, write, hw] at h
            simp only [Bool.false_eq_true, if_false, Except.error.injEq] at h
            rw [← h]
        · have hc1 : ¬ (s.appWithFlawsCounter + 1 = 1) := by omega
          simp only [hc1, if_false] at h
          exact (key _ _ _ h (fun f hfm hfs =>
            specRow_isSome _ _ _ _ _ _ hne (hmod b hsel f hfm hfs))).elim

theorem appLoop_no_panic (fl : Flags) (R : Remote) (W : Sys) (apps : List App) (s : State)
    (hcf : ∀ a ∈ apps, ∀ b, selected R a = some b →
      (R.ParseDetailedReport b.BuildID).customFields ≠ [])
    (hmod : ∀ a ∈ apps, ∀ b, selected R a = some b →
      ∀ f ∈ (R.ParseDetailedReport b.BuildID).flaws,
      skipFlaw fl f = false → f.Module = "dynamic_analysis" →
      (R.ParseDetailedReport b.BuildID).report.DynamicAnalysis.Modules.Module ≠ []) :
    haltKind (appLoop fl R W apps s) ≠ some .panic := by
  induction apps generalizing s with
  | nil => simp [appLoop, haltKind]
  | cons a rest ih =>
    unfold appLoop
    cases hp : processApp fl R W a s with
    | error e =>
      have := processApp_no_panic fl R W a s (hcf a (List.mem_cons_self _ _))
        (hmod a (List.mem_cons_self _ _)) e hp
      simp [haltKind, this]
    | ok t =>
      simp only []
      exact ih t (fun x hx => hcf x (List.mem_cons_of_mem _ hx))
        (fun x hx => hmod x (List.mem_cons_of_mem _ hx))

/-- C17 (index safety under preconditions).  For a build list of length at least 1 the
selector's indices `len-1` and `len-(i+1)` (for `i` from 1 to 3, under the guard
`len > i`) are in range and the selector completes; and a run in which every selected
build returns at least one custom field, and every selected report with a filter-passing
`dynamic_analysis` flaw has at least one dynamic module, does not end in a panic. -/
theorem index_safety (fl : Flags) (R : Remote) (W : Sys) (apps : List App)
    (happs : R.ParseAppList = .ok apps)
    (hcf : ∀ a ∈ apps, ∀ b, selected R a = some b →
      (R.ParseDetailedReport b.BuildID).customFields ≠ [])
    (hmod : ∀ a ∈ apps, ∀ b, selected R a = some b →
      ∀ f ∈ (R.ParseDetailedReport b.BuildID).flaws,
      skipFlaw fl f = false → f.Module = "dynamic_analysis" →
      (R.ParseDetailedReport b.BuildID).report.DynamicAnalysis.Modules.Module ≠ []) :
    (∀ B : List Build, 1 ≤ B.length →
      (index B ((B.length : Int) - 1)).isSome = true ∧
      (∀ i : Int, 1 ≤ i → i < 4 → (B.length : Int) > i →
        (index B ((B.length : Int) - (i + 1))).isSome = true) ∧
      ∀ s, ∃ t, selectBuild R B s = .ok t) ∧
    haltKind (main fl R W) ≠ some .panic := by
  constructor
  · intro B hB
    refine ⟨index_isSome B _ (by omega) (by omega), ?_, fun s => ⟨_, selectBuild_eq R B s⟩⟩
    intro i h1 _ hgt
    exact index_isSome B _ (by omega) (by omega)
  · unfold main
    rw [happs]
    by_cases hc : W.createOk = true
    · simp only [hc, if_true]
      exact appLoop_no_panic fl R W apps State.init hcf hmod
    · simp [hc, haltKind]

/-- An instance of C17: the run of scenario S5, whose report has a dynamic module and a
custom field, does not panic. -/
theorem index_safety_witness :
    (∀ B : List Build, 1 ≤ B.length →
      (index B ((B.length : Int) - 1)).isSome = true ∧
      (∀ i : Int, 1 ≤ i → i < 4 → (B.length : Int) > i →
        (index B ((B.length : Int) - (i + 1))).isSome = true) ∧
      ∀ s, ∃ t, selectBuild remoteS5 B s = .ok t) ∧
    haltKind (main flagsDefault remoteS5 sysOk) ≠ some .panic :=
  index_safety flagsDefault remoteS5 sysOk
    [{ AppID := "10", AppName := "shop" }, { AppID := "20", AppName := "bank" }] rfl
    (by
      intro a _ b _
      simp [remoteS5, fetchedOk])
    (by
      intro a _ b _ f _ _ _
      simp [remoteS5, fetchedOk, reportFull])

/-! ## The sequence of fetches (C15) -/

theorem selectResult_log (R : Remote) (bl : List Build) (s : State) (h : bl ≠ []) :
    (selectResult R bl s).fetchLog = s.fetchLog ++ fetchedUpTo R (probes bl) := by
  unfold selectResult
  split
  · rename_i hp
    exfalso
    have hlen := congrArg List.length hp
    simp only [probes, List.length_take, List.length_reverse, List.length_nil] at hlen
    have : 0 < bl.length := List.length_pos.mpr h
    omega
  · rename_i a rest hp
    have hw : walk R rest (assignReport R a.BuildID s)
        = walk R (a :: rest) { s with errorCheck := some "" } := by
      simp [walk, assignReport]
    have hl := walk_log R (a :: rest) { s with errorCheck := some "" } (by simp)
    simp only [hw]
    rw [hp]
    split <;> exact hl

theorem fetchedUpTo_take (R : Remote) (ps : List Build) (h : ps ≠ []) :
    ∃ m, 1 ≤ m ∧ m ≤ ps.length ∧
      fetchedUpTo R ps = (ps.take m).map (fun b => b.BuildID) ∧
      (∀ x ∈ ps.take (m - 1), usable R x = false) ∧
      (m < ps.length → ∃ x, ps[m - 1]? = some x ∧ usable R x = true) := by
  induction ps with
  | nil => exact absurd rfl h
  | cons b rest ih =>
    by_cases hb : usable R b = true
    · refine ⟨1, le_refl 1, by simp, by simp [fetchedUpTo, hb], by simp, ?_⟩
      intro _
      exact ⟨b, by simp, hb⟩
    · have hb2 : usable R b = false := by simpa using hb
      cases rest with
      | nil =>
        refine ⟨1, le_refl 1, by simp, by simp [fetchedUpTo, hb], by simp, ?_⟩
        intro hlt
        simp at hlt
      | cons c rest2 =>
        obtain ⟨m, h1, h2, h3, h4, h5⟩ := ih (by simp)
        refine ⟨m + 1, by omega, by simp only [List.length_cons] at h2 ⊢; omega, ?_, ?_, ?_⟩
        · simp only [fetchedUpTo, hb, List.take_succ_cons, List.map_cons]
          simp only [fetchedUpTo] at h3
          simp [h3]
        · intro x hx
          have hm : m + 1 - 1 = (m - 1) + 1 := by omega
          rw [hm, List.take_succ_cons] at hx
          rcases List.mem_cons.mp hx with rfl | hx
          · exact hb2
          · exact h4 x hx
        · intro hlt
          have hlt2 : m < (c :: rest2).length := by
            simp only [List.length_cons] at hlt ⊢
            omega
          obtain ⟨x, hx, hux⟩ := h5 hlt2
          refine ⟨x, ?_, hux⟩
          have hm : m + 1 - 1 = (m - 1) + 1 := by omega
          rw [hm, List.getElem?_cons_succ]
          exact hx

/-- C15 (probe sequence).  For a build list `B` of length at least 1 the selector
completes, and the build ids it passes to `ParseDetailedReport` are, in call order, those
of the `m` newest builds `B[n-1], B[n-2], ...`, for some `m` between 1 and `min n 4`:
every fetch before the last one failed, and when `m` is below `min n 4` the last fetch
succeeded.  So at most `min n 4` fetches are made, none for a build older than the fourth
newest, and none after a successful one. -/
theorem probe_sequence (R : Remote) (B : List Build) (s : State) (hB : 1 ≤ B.length) :
    ∃ t m, selectBuild R B s = .ok t ∧ 1 ≤ m ∧ m ≤ min B.length 4 ∧
      t.fetchLog = s.fetchLog ++ (B.reverse.take m).map (fun b => b.BuildID) ∧
      (∀ j, j < m → (B.reverse.take m)[j]? = B[B.length - 1 - j]?) ∧
      (∀ x ∈ B.reverse.take (m - 1), (R.ParseDetailedReport x.BuildID).err ≠ none) ∧
      (m < min B.length 4 →
        ∃ x, B.reverse[m - 1]? = some x ∧ (R.ParseDetailedReport x.BuildID).err = none) := by
  have hne : B ≠ [] := by
    intro h
    rw [h] at hB
    simp at hB
  have hpne : probes B ≠ [] := by
    intro h
    have hlen := congrArg List.length h
    simp only [probes, List.length_take, List.length_reverse, List.length_nil] at hlen
    omega
  obtain ⟨m, h1, h2, h3, h4, h5⟩ := fetchedUpTo_take R (probes B) hpne
  have hplen : (probes B).length = min 4 B.length := by
    simp [probes, List.length_take]
  have hm4 : m ≤ 4 := by omega
  have htake : ∀ k, k ≤ 4 → (probes B).take k = B.reverse.take k := by
    intro k hk
    simp [probes, List.take_take, Nat.min_eq_left hk]
  refine ⟨_, m, selectBuild_eq R B s, h1, by omega, ?_, ?_, ?_, ?_⟩
  · rw [selectResult_log R B s hne, h3, htake m hm4]
  · intro j hj
    have hjl : j < B.length := by omega
    rw [List.getElem?_take_of_lt hj, List.getElem?_reverse hjl]
  · intro x hx
    rw [← htake (m - 1) (by omega)] at hx
    have := h4 x hx
    simpa [usable] using this
  · intro hlt
    obtain ⟨x, hx, hux⟩ := h5 (by omega)
    refine ⟨x, ?_, by simpa [usable] using hux⟩
    have : (probes B)[m - 1]? = B.reverse[m - 1]? := by
      unfold probes
      rw [List.getElem?_take_of_lt (by omega)]
    rw [← this]
    exact hx

/-- Scenario S3 as an instance of C15: four builds, of which only the oldest has a
report. -/
theorem probe_sequence_witness :
    ∃ t m, selectBuild remoteS3 buildsFour State.init = .ok t ∧ 1 ≤ m ∧
      m ≤ min buildsFour.length 4 ∧
      t.fetchLog = State.init.fetchLog ++ (buildsFour.reverse.take m).map (fun b => b.BuildID) ∧
      (∀ j, j < m → (buildsFour.reverse.take m)[j]? = buildsFour[buildsFour.length - 1 - j]?) ∧
      (∀ x ∈ buildsFour.reverse.take (m - 1), (remoteS3.ParseDetailedReport x.BuildID).err ≠ none) ∧
      (m < min buildsFour.length 4 →
        ∃ x, buildsFour.reverse[m - 1]? = some x ∧
          (remoteS3.ParseDetailedReport x.BuildID).err = none) :=
  probe_sequence remoteS3 buildsFour State.init (by decide)

/-! ## Data records as a subsequence (C12, C18) -/

theorem dataRows_single (row : List String) :
    dataRows [{ kind := RowKind.data, cells := row }] = [row] := by
  simp [dataRows]

theorem emitted_sublist (fl : Flags) (W : Sys) (app : App) (b : String) (r : DetReport)
    (cs : List CustomField) (fs : List Flaw) (n : Nat) :
    (dataRows (emitted fl W app b r cs fs n)).Sublist
      ((fs.filter (fun f => !skipFlaw fl f)).filterMap (specRow fl app b r cs)) := by
  induction fs generalizing n with
  | nil => simp [emitted, dataRows]
  | cons f rest ih =>
    unfold emitted
    by_cases hs : skipFlaw fl f = true
    · rw [if_pos hs]
      simpa [List.filter, hs] using ih n
    · have hs2 : skipFlaw fl f = false := by simpa using hs
      rw [if_neg hs]
      cases hrow : specRow fl app b r cs f with
      | none =>
        simp only [dataRows, List.filter_nil, List.map_nil]
        exact List.nil_sublist _
      | some row =>
        have hrhs : (List.filter (fun f => !skipFlaw fl f) (f :: rest)).filterMap
            (specRow fl app b r cs)
            = row :: (List.filter (fun f => !skipFlaw fl f) rest).filterMap
                (specRow fl app b r cs) := by
          simp [List.filter, hs2, hrow]
        rw [hrhs]
        simp only [dataRows_append]
        by_cases hw : W.writeOk n = true
        · simp only [hw, if_true, dataRows_single]
          exact List.Sublist.cons₂ row (ih (n + 1))
        · have hw2 : W.writeOk n = false := by simpa using hw
          have hnil : dataRows ([] : List OutRow) = [] := rfl
          simp only [hw2, Bool.false_eq_true, if_false, hnil, List.nil_append]
          exact List.Sublist.cons row (ih (n + 1))

theorem appOut_sublist (fl : Flags) (R : Remote) (W : Sys) (a : App) (cnt n : Nat) :
    (dataRows (appOut fl R W a cnt n)).Sublist (appRows fl R a) := by
  unfold appOut appRows survivors
  cases hsel : selected R a with
  | none => simp [dataRows]
  | some b =>
    simp only []
    by_cases hc : cnt = 0
    · simp only [hc, if_true]
      cases hcf : (R.ParseDetailedReport b.BuildID).customFields.head? with
      | none =>
        simp only [dataRows, List.filter_nil, List.map_nil]
        exact List.nil_sublist _
      | some c =>
        by_cases hw : W.writeOk n = true
        · simp only [hw, if_true, dataRows_header]
          exact emitted_sublist _ _ _ _ _ _ _ _
        · simp only [hw, if_false]
          exact List.nil_sublist _
    · simp only [hc, if_false]
      exact emitted_sublist _ _ _ _ _ _ _ _

theorem appLoop_sublist (fl : Flags) (R : Remote) (W : Sys) (apps : List App) (s : State) :
    ∃ rows, (final (appLoop fl R W apps s)).out = s.out ++ rows ∧
      (dataRows rows).Sublist (apps.flatMap (appRows fl R)) := by
  induction apps generalizing s with
  | nil => exact ⟨[], by simp [appLoop, final], by simp [dataRows]⟩
  | cons a rest ih =>
    have hout := processApp_out fl R W a s
    have hsub := appOut_sublist fl R W a s.appWithFlawsCounter s.nwrites
    unfold appLoop
    cases hp : processApp fl R W a s with
    | error e =>
      rw [hp] at hout
      refine ⟨_, hout, ?_⟩
      rw [List.flatMap_cons]
      have := List.Sublist.append hsub (List.nil_sublist (rest.flatMap (appRows fl R)))
      simpa using this
    | ok t =>
      rw [hp] at hout
      simp only [final] at hout
      obtain ⟨rows, hr, hs2⟩ := ih t
      refine ⟨appOut fl R W a s.appWithFlawsCounter s.nwrites ++ rows, ?_, ?_⟩
      · simp only [hr]
        rw [hout, List.append_assoc]
      · rw [dataRows_append, List.flatMap_cons]
        exact List.Sublist.append hsub hs2

/-- In every run the data records form a subsequence of the records of the surviving
flaws of the selected builds, taken in application-list and flaw-list order. -/
theorem output_sublist (fl : Flags) (R : Remote) (W : Sys) (apps : List App)
    (happs : R.ParseAppList = .ok apps) :
    (dataRows (output fl R W)).Sublist (apps.flatMap (appRows fl R)) := by
  unfold output main
  rw [happs]
  by_cases hc : W.createOk = true
  · simp only [hc, if_true]
    obtain ⟨rows, hr, hs⟩ := appLoop_sublist fl R W apps State.init
    rw [hr]
    simpa [State.init] using hs
  · simp only [hc, if_false, final]
    exact List.nil_sublist _

theorem flatMap_sublist {α β : Type} (l : List α) (f g : α → List β)
    (h : ∀ a ∈ l, (f a).Sublist (g a)) : (l.flatMap f).Sublist (l.flatMap g) := by
  induction l with
  | nil => simp
  | cons a rest ih =>
    rw [List.flatMap_cons, List.flatMap_cons]
    exact List.Sublist.append (h a (List.mem_cons_self _ _))
      (ih (fun x hx => h x (List.mem_cons_of_mem _ hx)))

theorem specRow_desc (fl fl2 : Flags) (hd : fl.inclDesc = fl2.inclDesc) :
    specRow fl = specRow fl2 := by
  funext a b r cs f
  simp [specRow, specCells, hd]

/-- A filter that drops at least as much gives a subsequence of the data records of an
application. -/
theorem appRows_mono (fl fl2 : Flags) (R : Remote) (a : App)
    (hd : fl.inclDesc = fl2.inclDesc)
    (hm : ∀ f, skipFlaw fl2 f = true → skipFlaw fl f = true) :
    (appRows fl R a).Sublist (appRows fl2 R a) := by
  unfold appRows survivors
  cases hsel : selected R a with
  | none => simp
  | some b =>
    simp only []
    rw [specRow_desc fl fl2 hd]
    apply List.Sublist.filterMap
    apply List.monotone_filter_right
    intro f hf
    by_cases h2 : skipFlaw fl2 f = true
    · rw [hm f h2] at hf
      simp at hf
    · simpa using h2

/-- The data records of any run under the stricter flags form a subsequence of those of
a completed run, with every write succeeding, under the laxer flags. -/
theorem rows_mono (fl fl2 : Flags) (R : Remote) (W : Sys) (t : State)
    (hw : ∀ n, W.writeOk n = true) (hrun : main fl2 R W = .ok t)
    (hd : fl.inclDesc = fl2.inclDesc)
    (hm : ∀ f, skipFlaw fl2 f = true → skipFlaw fl f = true) :
    (dataRows (output fl R W)).Sublist (dataRows (output fl2 R W)) := by
  have hout : output fl2 R W = t.out := by simp [output, hrun, final]
  unfold main at hrun
  cases happs : R.ParseAppList with
  | error e => simp [happs] at hrun
  | ok apps =>
    rw [happs] at hrun
    by_cases hc : W.createOk = true
    · simp only [hc, if_true] at hrun
      obtain ⟨h1, _⟩ := appLoop_exact fl2 R W apps State.init t hw hrun
      have h2 : dataRows (output fl2 R W) = apps.flatMap (appRows fl2 R) := by
        rw [hout, h1]
        simp [State.init, dataRows]
      rw [h2]
      exact (output_sublist fl R W apps happs).trans
        (flatMap_sublist apps _ _ (fun a _ => appRows_mono fl fl2 R a hd hm))
    · simp [hc] at hrun

/-- C18, as stated, fails.  With the disk full after three records, switching `-nonpv`
on removes the record of flaw `6`: the write that fails is now its own.  And for a report
without a dynamic module, switching `-static` on adds a record: without the flag the run
panics at the dynamic flaw before the static flaw is reached. -/
theorem flag_monotonicity_cex :
    dataRows (output flagsDefault remoteThree sysFullAfterThree)
      = [specCells flagsDefault { AppID := "10", AppName := "shop" }
          { Name := "Business Unit", Value := "Finance" } "b1" flawOpen "static" ""
          "2018-02-01",
         specCells flagsDefault { AppID := "10", AppName := "shop" }
          { Name := "Business Unit", Value := "Finance" } "b1" flawOpenLate "static" ""
          "2018-02-01"] ∧
    dataRows (output flagsNonPV remoteThree sysFullAfterThree)
      = [specCells flagsNonPV { AppID := "10", AppName := "shop" }
          { Name := "Business Unit", Value := "Finance" } "b1" flawOpen "static" ""
          "2018-02-01",
         specCells flagsNonPV { AppID := "10", AppName := "shop" }
          { Name := "Business Unit", Value := "Finance" } "b1" flawNonPV "static" ""
          "2018-02-01"] ∧
    ¬ (dataRows (output flagsDefault remoteThree sysFullAfterThree)).Sublist
        (dataRows (output flagsNonPV remoteThree sysFullAfterThree)) ∧
    haltKind (main flagsDefault remoteNoModule sysOk) = some .panic ∧
    dataRows (output flagsDefault remoteNoModule sysOk) = [] ∧
    dataRows (output flagsStatic remoteNoModule sysOk)
      = [specCells flagsStatic { AppID := "10", AppName := "shop" }
          { Name := "Business Unit", Value := "Finance" } "b1" flawOpen "static" "" ""] ∧
    ¬ (dataRows (output flagsStatic remoteNoModule sysOk)).Sublist
        (dataRows (output flagsDefault remoteNoModule sysOk)) := by
  decide

/-- C18 as amended.  With every write succeeding and the other flags fixed: when the run
with `-nonpv` (or `-mitigated`) set completes, the data records of the run with the flag
unset are a subsequence of its data records; and when the run with `-static` (or
`-dynamic`) unset completes, the data records of the run with the flag set are a
subsequence of its data records, so setting the flag adds no record. -/
theorem flag_monotonicity (fl : Flags) (R : Remote) (W : Sys)
    (hw : ∀ n, W.writeOk n = true) :
    (∀ t, main { fl with inclNonPV := true } R W = .ok t →
      (dataRows (output { fl with inclNonPV := false } R W)).Sublist
        (dataRows (output { fl with inclNonPV := true } R W))) ∧
    (∀ t, main { fl with inclMitigated := true } R W = .ok t →
      (dataRows (output { fl with inclMitigated := false } R W)).Sublist
        (dataRows (output { fl with inclMitigated := true } R W))) ∧
    (∀ t, main { fl with staticOnly := false } R W = .ok t →
      (dataRows (output { fl with staticOnly := true } R W)).Sublist
        (dataRows (output { fl with staticOnly := false } R W))) ∧
    (∀ t, main { fl with dynamicOnly := false } R W = .ok t →
      (dataRows (output { fl with dynamicOnly := true } R W)).Sublist
        (dataRows (output { fl with dynamicOnly := false } R W))) := by
  refine ⟨?_, ?_, ?_, ?_⟩
  all_goals
    intro t hrun
    refine rows_mono _ _ R W t hw hrun rfl ?_
    intro f h
    simp only [skipFlaw, Bool.or_eq_true, Bool.and_eq_true, beq_iff_eq, bne_iff_ne] at h ⊢
    tauto

/-- An instance of the amended C18, on a report with a policy-violating flaw and one
that does not affect policy compliance, every write succeeding: the default run's data
records are a subsequence of those with `-nonpv`, and those with `-static` are a
subsequence of the default run's. -/
theorem flag_monotonicity_witness :
    (dataRows (output flagsDefault remoteMixed sysOk)).Sublist
      (dataRows (output flagsNonPV remoteMixed sysOk)) ∧
    (dataRows (output flagsStatic remoteMixed sysOk)).Sublist
      (dataRows (output flagsDefault remoteMixed sysOk)) :=
  ⟨(flag_monotonicity flagsDefault remoteMixed sysOk (fun _ => rfl)).1
      (final (main flagsNonPV remoteMixed sysOk)) rfl,
   (flag_monotonicity flagsDefault remoteMixed sysOk (fun _ => rfl)).2.2.1
      (final (main flagsDefault remoteMixed sysOk)) rfl⟩

/-! ## Unique ids (C12) -/

theorem split_unique {α : Type} (c : α) (l1 l2 r1 r2 : List α) (h1 : c ∉ l1) (h2 : c ∉ l2)
    (h : l1 ++ c :: r1 = l2 ++ c :: r2) : l1 = l2 ∧ r1 = r2 := by
  induction l1 generalizing l2 with
  | nil =>
    cases l2 with
    | nil => simpa using h
    | cons y l2 =>
      simp only [List.nil_append, List.cons_append, List.cons.injEq] at h
      exact absurd (h.1 ▸ List.mem_cons_self _ _) h2
  | cons x l1 ih =>
    cases l2 with
    | nil =>
      simp only [List.nil_append, List.cons_append, List.cons.injEq] at h
      exact absurd (h.1 ▸ List.mem_cons_self _ _) h1
    | cons y l2 =>
      simp only [List.cons_append, List.cons.injEq] at h
      obtain ⟨hxy, htl⟩ := h
      have := ih l2 (fun hc => h1 (List.mem_cons_of_mem _ hc))
        (fun hc => h2 (List.mem_cons_of_mem _ hc)) htl
      exact ⟨by rw [hxy, this.1], this.2⟩

theorem split_unique_right {α : Type} (c : α) (l1 l2 r1 r2 : List α) (h1 : c ∉ r1)
    (h2 : c ∉ r2) (h : l1 ++ c :: r1 = l2 ++ c :: r2) : l1 = l2 ∧ r1 = r2 := by
  have hrev := congrArg List.reverse h
  simp only [List.reverse_append, List.reverse_cons, List.append_assoc, List.singleton_append]
    at hrev
  have := split_unique c r1.reverse r2.reverse l1.reverse l2.reverse
    (by simpa using h1) (by simpa using h2) hrev
  exact ⟨List.reverse_injective this.2, List.reverse_injective this.1⟩

theorem uniqueId_data (a : App) (f : Flaw) :
    (uniqueId a f).toList = a.AppID.toList ++ '-' :: f.Issueid.toList := by
  simp [uniqueId, String.toList]

/-- Equal unique ids come from equal application ids and equal issue ids, when neither
application id, or neither issue id, contains a hyphen. -/
theorem uniqueId_inj (a a2 : App) (f f2 : Flaw)
    (hh : ('-' ∉ a.AppID.toList ∧ '-' ∉ a2.AppID.toList) ∨
      ('-' ∉ f.Issueid.toList ∧ '-' ∉ f2.Issueid.toList))
    (h : uniqueId a f = uniqueId a2 f2) : a.AppID = a2.AppID ∧ f.Issueid = f2.Issueid := by
  have hd : a.AppID.toList ++ '-' :: f.Issueid.toList
      = a2.AppID.toList ++ '-' :: f2.Issueid.toList := by
    rw [← uniqueId_data, ← uniqueId_data, h]
  have key : a.AppID.toList = a2.AppID.toList ∧ f.Issueid.toList = f2.Issueid.toList := by
    rcases hh with ⟨h1, h2⟩ | ⟨h1, h2⟩
    · exact split_unique _ _ _ _ _ h1 h2 hd
    · exact split_unique_right _ _ _ _ _ h1 h2 hd
  exact ⟨String.ext key.1, String.ext key.2⟩

theorem rows_ids_sublist (fl : Flags) (a : App) (b : String) (r : DetReport)
    (cs : List CustomField) (fs : List Flaw) :
    (uniqueIds ((fs.filter (fun f => !skipFlaw fl f)).filterMap (specRow fl a b r cs))).Sublist
      (fs.map (fun f => some (uniqueId a f))) := by
  induction fs with
  | nil => simp [uniqueIds]
  | cons f rest ih =>
    by_cases hs : skipFlaw fl f = true
    · have : (List.filter (fun f => !skipFlaw fl f) (f :: rest)) =
          List.filter (fun f => !skipFlaw fl f) rest := by simp [List.filter, hs]
      rw [this, List.map_cons]
      exact List.Sublist.cons _ ih
    · have hs2 : skipFlaw fl f = false := by simpa using hs
      have hfil : (List.filter (fun f => !skipFlaw fl f) (f :: rest)) =
          f :: List.filter (fun f => !skipFlaw fl f) rest := by simp [List.filter, hs2]
      rw [hfil, List.map_cons]
      cases hrow : specRow fl a b r cs f with
      | none =>
        simp only [List.filterMap_cons, hrow]
        exact List.Sublist.cons _ ih
      | some row =>
        obtain ⟨c, t, u, d, _, _, hcells⟩ := specRow_cells _ _ _ _ _ _ _ hrow
        simp only [List.filterMap_cons, hrow, uniqueIds, List.map_cons]
        have hid : row[4]? = some (uniqueId a f) := by
          rw [hcells]
          simp [specCells, uniqueId]
        rw [hid]
        exact List.Sublist.cons₂ _ ih

theorem appRows_ids_sublist (fl : Flags) (R : Remote) (a : App) :
    (uniqueIds (appRows fl R a)).Sublist ((flawsOf R a).map (fun f => some (uniqueId a f))) := by
  unfold appRows survivors flawsOf
  cases hsel : selected R a with
  | none => simp [uniqueIds]
  | some b => exact rows_ids_sublist fl a _ _ _ _

theorem uniqueIds_flatMap (apps : List App) (g : App → List (List String)) :
    uniqueIds (apps.flatMap g) = apps.flatMap (fun a => uniqueIds (g a)) := by
  simp [uniqueIds, List.map_flatMap]

theorem all_ids_nodup (R : Remote) (apps : List App)
    (hids : (apps.map (fun a => a.AppID)).Nodup)
    (hiss : ∀ a ∈ apps, ((flawsOf R a).map (fun f => f.Issueid)).Nodup)
    (hh : (∀ a ∈ apps, '-' ∉ a.AppID.toList) ∨
      (∀ a ∈ apps, ∀ f ∈ flawsOf R a, '-' ∉ f.Issueid.toList)) :
    (apps.flatMap (fun a => (flawsOf R a).map (fun f => some (uniqueId a f)))).Nodup := by
  induction apps with
  | nil => simp
  | cons a rest ih =>
    rw [List.flatMap_cons, List.nodup_append]
    have hids2 : a.AppID ∉ rest.map (fun a => a.AppID) ∧
        (rest.map (fun a => a.AppID)).Nodup := by
      rw [List.map_cons] at hids
      exact List.nodup_cons.mp hids
    refine ⟨?_, ?_, ?_⟩
    · have hn := hiss a (List.mem_cons_self _ _)
      have hinj : Function.Injective (fun i : String => some (a.AppID ++ "-" ++ i)) := by
        intro i j hij
        simp only [Option.some.injEq] at hij
        have := congrArg String.toList hij
        simp only [String.toList, String.data_append] at this
        exact String.ext (List.append_cancel_left this)
      have := List.Nodup.map hinj hn
      simpa [List.map_map, Function.comp, uniqueId] using this
    · apply ih hids2.2 (fun x hx => hiss x (List.mem_cons_of_mem _ hx))
      rcases hh with h1 | h2
      · exact Or.inl (fun x hx => h1 x (List.mem_cons_of_mem _ hx))
      · exact Or.inr (fun x hx => h2 x (List.mem_cons_of_mem _ hx))
    · intro x hx1 hx2
      obtain ⟨f, hf, hxf⟩ := List.mem_map.mp hx1
      obtain ⟨a2, ha2, hx3⟩ := List.mem_flatMap.mp hx2
      obtain ⟨f2, hf2, hxf2⟩ := List.mem_map.mp hx3
      have heq : uniqueId a f = uniqueId a2 f2 := by
        have := hxf.trans hxf2.symm
        simpa using this
      have hcond : ('-' ∉ a.AppID.toList ∧ '-' ∉ a2.AppID.toList) ∨
          ('-' ∉ f.Issueid.toList ∧ '-' ∉ f2.Issueid.toList) := by
        rcases hh with h1 | h2
        · exact Or.inl ⟨h1 a (List.mem_cons_self _ _), h1 a2 (List.mem_cons_of_mem _ ha2)⟩
        · exact Or.inr ⟨h2 a (List.mem_cons_self _ _) f hf,
            h2 a2 (List.mem_cons_of_mem _ ha2) f2 hf2⟩
      have hid := (uniqueId_inj a a2 f f2 hcond heq).1
      apply hids2.1
      rw [hid]
      exact List.mem_map.mpr ⟨a2, ha2, rfl⟩

/-- C12, as stated, fails: the application ids `1` and `1-2` are distinct and each build
has a single flaw, yet both data records get the unique id `1-2-3`. -/
theorem unique_id_cex :
    ([({ AppID := "1", AppName := "shop" } : App), { AppID := "1-2", AppName := "bank" }].map
      (fun a => a.AppID)).Nodup ∧
    (∀ a ∈ [({ AppID := "1", AppName := "shop" } : App), { AppID := "1-2", AppName := "bank" }],
      ((flawsOf remoteHyphen a).map (fun f => f.Issueid)).Nodup) ∧
    uniqueIds (dataRows (output flagsDefault remoteHyphen sysOk))
      = [some "1-2-3", some "1-2-3"] ∧
    ¬ (uniqueIds (dataRows (output flagsDefault remoteHyphen sysOk))).Nodup := by
  decide

/-- C12 as amended.  In every run in which the application ids of the application list
are pairwise distinct, the issue ids of the flaws of each selected build are pairwise
distinct, and no application id contains a hyphen (or no issue id of a selected build
does), the `unique_id` cells of the data records are pairwise distinct. -/
theorem unique_ids_distinct (fl : Flags) (R : Remote) (W : Sys) (apps : List App)
    (happs : R.ParseAppList = .ok apps)
    (hids : (apps.map (fun a => a.AppID)).Nodup)
    (hiss : ∀ a ∈ apps, ((flawsOf R a).map (fun f => f.Issueid)).Nodup)
    (hh : (∀ a ∈ apps, '-' ∉ a.AppID.toList) ∨
      (∀ a ∈ apps, ∀ f ∈ flawsOf R a, '-' ∉ f.Issueid.toList)) :
    (uniqueIds (dataRows (output fl R W))).Nodup := by
  have h1 : (uniqueIds (dataRows (output fl R W))).Sublist
      (uniqueIds (apps.flatMap (appRows fl R))) :=
    List.Sublist.map _ (output_sublist fl R W apps happs)
  have h2 : (uniqueIds (apps.flatMap (appRows fl R))).Sublist
      (apps.flatMap (fun a => (flawsOf R a).map (fun f => some (uniqueId a f)))) := by
    rw [uniqueIds_flatMap]
    exact flatMap_sublist apps _ _ (fun a _ => appRows_ids_sublist fl R a)
  exact List.Nodup.sublist (h1.trans h2) (all_ids_nodup R apps hids hiss hh)

/-- An instance of the amended C12: scenario S5, whose application ids `10` and `20`
contain no hyphen. -/
theorem unique_ids_distinct_witness :
    (uniqueIds (dataRows (output flagsDefault remoteS5 sysOk))).Nodup ∧
    uniqueIds (dataRows (output flagsDefault remoteS5 sysOk)) = [some "20-1", some "20-3"] :=
  ⟨unique_ids_distinct flagsDefault remoteS5 sysOk
      [{ AppID := "10", AppName := "shop" }, { AppID := "20", AppName := "bank" }] rfl
      (by decide) (by decide) (Or.inl (by decide)),
   by decide⟩

end Vcodecsv
